import Mathlib

/-!
Verification of the SDGP data-scraper chatbot core: summary cache
(`ai_summary_manager.py`), relevance ranking and context assembly
(`enhanced_ai_chatbot.py`), and bounded conversation memory.

Records are modelled as JSON-like values (`J`), mirroring the Python
dictionaries the source manipulates; all field access goes through
defaulting getters that translate Python's `dict.get(key, default)`.
The MD5 digest is kept abstract: every definition that hashes takes a
`md5 : String → String` parameter.  Theorems that need facts about the
digest (injectivity on the corpus, 32-character output) state them as
hypotheses, matching the spec's "any hash function with negligible
collision probability is acceptable".
-/

/-- JSON-like values, modelling the Python dictionaries loaded from the
scraped data files. Objects are association lists in insertion order,
as Python dicts are. -/
inductive J where
  | null : J
  | str (s : String) : J
  | num (n : Nat) : J
  | arr (elems : List J) : J
  | obj (entries : List (String × J)) : J

namespace J

/-- Python truthiness on JSON values (`not detailed_info` in `_hash_content`). -/
def falsy : J → Bool
  | null => true
  | str s => s == ""
  | num n => n == 0
  | arr l => l.isEmpty
  | obj l => l.isEmpty

/-- First-match association-list lookup, the semantics of Python dict
indexing (keys are unique in real dicts, so first match is the match). -/
def alookup (k : String) : List (String × J) → Option J
  | [] => none
  | e :: es => if e.1 == k then some e.2 else alookup k es

/-- `j.get k`: the value stored under key `k` when `j` is an object holding
that key, otherwise `none`.  Models Python `d.get(k)` / `k in d`. -/
def getEntry (j : J) (k : String) : Option J :=
  match j with
  | obj l => alookup k l
  | _ => none

/-- Models `d.get(k, {})`. -/
def getObjD (j : J) (k : String) : J :=
  (j.getEntry k).getD (J.obj [])

/-- Models `d.get(k, default)` where the value is expected to be a string
(per the data model all these fields are strings when present). -/
def getStrD (j : J) (k : String) (d : String) : String :=
  match j.getEntry k with
  | some (J.str s) => s
  | _ => d

/-- Models `d.get(k, '')`. -/
def getStr (j : J) (k : String) : String := j.getStrD k ""

/-- Models `d.get(k, [])` where a list is expected. -/
def getArr (j : J) (k : String) : List J :=
  match j.getEntry k with
  | some (J.arr l) => l
  | _ => []

/-- The string elements of the list stored under `k`; per the data model
these lists hold strings (a non-string element is read as `""`). -/
def getStrArr (j : J) (k : String) : List String :=
  (j.getArr k).map fun x => match x with | J.str s => s | _ => ""

end J

/-- ASCII lowercasing, modelling Python's `str.lower()` on the ASCII
range (the corpus is ASCII; `Char.toLower` lowercases exactly `A`–`Z`). -/
def strLower (s : String) : String := ⟨s.data.map Char.toLower⟩

/-- Does the first list occur at the head of the second? -/
def listStarts : List Char → List Char → Bool
  | [], _ => true
  | _ :: _, [] => false
  | a :: as, b :: bs => a == b && listStarts as bs

/-- Does the first list occur contiguously anywhere in the second? -/
def listInside : List Char → List Char → Bool
  | needle, [] => needle.isEmpty
  | needle, hay@(_ :: t) => listStarts needle hay || listInside needle t

/-- Python's `needle in haystack` substring test on strings. -/
def substr (needle hay : String) : Bool := listInside needle.data hay.data

/-- Whitespace per Python's `str.split()` (the ASCII/Latin-1 whitespace
characters; further Unicode space characters are outside the model). -/
def pyIsSpace (c : Char) : Bool :=
  c == ' ' || c == '\t' || c == '\n' || c == '\x0d' ||
  c == '\x0b' || c == '\x0c' || c == '\x1c' || c == '\x1d' ||
  c == '\x1e' || c == '\x1f' || c == '\x85' || c == '\xa0'

/-- Python's `str.split()` with no argument: split on whitespace runs,
dropping empty chunks. -/
def pyWords (s : String) : List String :=
  ((s.data.splitOnP pyIsSpace).filter (fun w => !w.isEmpty)).map List.asString

/-! ## The fingerprint generator (`AISummaryManager._generate_project_hash`,
`AISummaryManager._hash_content`)

The source builds a fixed-key Python dict and serializes it with
`json.dumps(..., sort_keys=True)` (default `ensure_ascii=True`,
separators `', '` / `': '`), then digests with MD5.  We model the exact
serialized byte string; `md5` stays an abstract parameter. -/

/-- Lowercase hexadecimal digit, as produced by Python's `'{0:04x}'.format`. -/
def hexDig (d : Nat) : Char :=
  if d = 0 then '0' else if d = 1 then '1' else if d = 2 then '2'
  else if d = 3 then '3' else if d = 4 then '4' else if d = 5 then '5'
  else if d = 6 then '6' else if d = 7 then '7' else if d = 8 then '8'
  else if d = 9 then '9' else if d = 10 then 'a' else if d = 11 then 'b'
  else if d = 12 then 'c' else if d = 13 then 'd' else if d = 14 then 'e'
  else 'f'

/-- Four lowercase hex digits of `n < 0x10000` (Python `'%04x' % n`). -/
def hex4 (n : Nat) : List Char :=
  [hexDig (n / 4096 % 16), hexDig (n / 256 % 16), hexDig (n / 16 % 16), hexDig (n % 16)]

/-- Python `json`'s per-character ASCII escaping (`py_encode_basestring_ascii`):
printable ASCII other than `"` and `\` is literal; the short escapes
`\" \\ \b \f \n \r \t`; everything else becomes `\uXXXX`, with a
surrogate pair for code points above `0xFFFF`. -/
def escChar (c : Char) : List Char :=
  if c = '"' then ['\\', '"']
  else if c = '\\' then ['\\', '\\']
  else if c = '\x08' then ['\\', 'b']
  else if c = '\x0c' then ['\\', 'f']
  else if c = '\n' then ['\\', 'n']
  else if c = '\x0d' then ['\\', 'r']
  else if c = '\t' then ['\\', 't']
  else if 0x20 ≤ c.toNat ∧ c.toNat ≤ 0x7e then [c]
  else if c.toNat < 0x10000 then '\\' :: 'u' :: hex4 c.toNat
  else
    let v := c.toNat - 0x10000
    ('\\' :: 'u' :: hex4 (0xd800 + v / 0x400)) ++ ('\\' :: 'u' :: hex4 (0xdc00 + v % 0x400))

/-- JSON escape of a whole string. -/
def escStr (s : String) : List Char := s.data.flatMap escChar

/-- A JSON string literal: `"…"` with contents escaped. -/
def jstr (s : String) : List Char := '"' :: escStr s ++ ['"']

/-- A JSON array of string literals with Python's `', '` separator. -/
def jstrs : List String → List Char
  | [] => ['[', ']']
  | s :: rest =>
    '[' :: jstr s ++ (rest.flatMap fun t => ',' :: ' ' :: jstr t) ++ [']']

/-- Decimal digits of a natural number, as Python serializes an `int`. -/
def natChars (n : Nat) : List Char :=
  if _h : n < 10 then [hexDig n]
  else natChars (n / 10) ++ [hexDig (n % 10)]
  decreasing_by exact Nat.div_lt_self (by omega) (by omega)

/-- The data hashed from a record's detailed content
(`_hash_content`'s `content_data` dict). -/
structure ContentData where
  problem_statement : String
  solution : String
  features : String
  team_size : Nat
  tech_stack : List String
  deriving DecidableEq

/-- `json.dumps(content_data, sort_keys=True)`: keys serialize in the order
features, problem_statement, solution, team_size, tech_stack. -/
def content_data_string (cd : ContentData) : List Char :=
  ("\x7b\"features\": ").data ++ jstr cd.features ++
  (", \"problem_statement\": ").data ++ jstr cd.problem_statement ++
  (", \"solution\": ").data ++ jstr cd.solution ++
  (", \"team_size\": ").data ++ natChars cd.team_size ++
  (", \"tech_stack\": ").data ++ jstrs cd.tech_stack ++ ("\x7d").data

/-- The tech-stack list extracted in `_hash_content`:
`[assoc.get('techStack', '') for assoc in content.get('associations', [])
if assoc.get('type') == 'PROJECT_TECH']`. -/
def techStackOf (content : J) : List String :=
  (content.getArr "associations").filterMap fun a =>
    if a.getStr "type" == "PROJECT_TECH" then some (a.getStr "techStack") else none

/-- The `content_data` dict built by `_hash_content` from a present
`detailed_info['content']` value. -/
def contentDataOf (content : J) : ContentData :=
  { problem_statement := (content.getObjD "projectDetails").getStr "problem_statement"
    solution := (content.getObjD "projectDetails").getStr "solution"
    features := (content.getObjD "projectDetails").getStr "features"
    team_size := (content.getArr "team").length
    tech_stack := techStackOf content }

/-- `AISummaryManager._hash_content`: the empty string when
`detailed_info` is falsy or has no `content` key, otherwise the digest of
the canonical `content_data` serialization. -/
def hash_content (md5 : String → String) (detailed_info : J) : String :=
  if detailed_info.falsy || (detailed_info.getEntry "content").isNone then ""
  else md5 ⟨content_data_string (contentDataOf ((detailed_info.getEntry "content").getD J.null))⟩

/-- The data hashed from a record (`_generate_project_hash`'s `hash_data`
dict); `content_hash` is the string produced by `_hash_content`. -/
structure HashData where
  title : String
  subtitle : String
  status : String
  domains : List String
  projectTypes : List String
  year : String
  updated_at : String
  content_hash : String
  deriving DecidableEq

/-- `json.dumps(hash_data, sort_keys=True)`: keys serialize in the order
content_hash, domains, projectTypes, status, subtitle, title,
updated_at, year. -/
def hash_data_string (hd : HashData) : List Char :=
  ("\x7b\"content_hash\": ").data ++ jstr hd.content_hash ++
  (", \"domains\": ").data ++ jstrs hd.domains ++
  (", \"projectTypes\": ").data ++ jstrs hd.projectTypes ++
  (", \"status\": ").data ++ jstr hd.status ++
  (", \"subtitle\": ").data ++ jstr hd.subtitle ++
  (", \"title\": ").data ++ jstr hd.title ++
  (", \"updated_at\": ").data ++ jstr hd.updated_at ++
  (", \"year\": ").data ++ jstr hd.year ++ ("\x7d").data

/-- The `hash_data` dict built by `_generate_project_hash` from a record. -/
def projectHashData (md5 : String → String) (p : J) : HashData :=
  let bi := p.getObjD "basic_info"
  { title := bi.getStr "title"
    subtitle := bi.getStr "subtitle"
    status := bi.getStr "status"
    domains := bi.getStrArr "domains"
    projectTypes := bi.getStrArr "projectTypes"
    year := bi.getStr "year"
    updated_at := bi.getStr "updatedAt"
    content_hash := hash_content md5 (p.getObjD "detailed_info") }

/-- `AISummaryManager._generate_project_hash`. -/
def generate_project_hash (md5 : String → String) (p : J) : String :=
  md5 ⟨hash_data_string (projectHashData md5 p)⟩

/-! ## The summary cache (`AISummaryManager`)

State: the two in-memory dicts `summaries` (id → summary text) and
`metadata` (id → {hash, created_at, title}), plus the two backing files.
Python dict mutation `d[k] = v` keeps an existing key's position and
appends fresh keys, modelled by `dictSet` on association lists.
File writes can fail (`IOError` inside `_save_summaries`); the failure
oracle is a pair of booleans saying whether each `json.dump` raises. -/

/-- Python `d[k] = v` on an association list: overwrite in place, or
append when the key is fresh. -/
def dictSet (l : List (String × α)) (k : String) (v : α) : List (String × α) :=
  if l.any (fun e => e.1 == k) then
    l.map fun e => if e.1 == k then (k, v) else e
  else l ++ [(k, v)]

/-- Python `d.get(k)` on an association list. -/
def dictGet (l : List (String × α)) (k : String) : Option α :=
  (l.find? (fun e => e.1 == k)).map (·.2)

/-- One entry of the metadata store.  A loaded metadata file may lack the
`hash` key, hence the `Option`; `store_summary` always writes all three. -/
structure MetaEntry where
  hash : Option String
  created_at : String
  title : String
  deriving DecidableEq

/-- The in-memory state of `AISummaryManager`. -/
structure Cache where
  summaries : List (String × String)
  metadata : List (String × MetaEntry)
  deriving DecidableEq

/-- The two backing files (`project_summaries.json`, `metadata.json`);
`none` means the file does not exist. -/
structure Disk where
  summariesFile : Option (List (String × String))
  metadataFile : Option (List (String × MetaEntry))
  deriving DecidableEq

/-- `AISummaryManager._save_summaries`: dump `summaries`, then dump
`metadata`, with the whole sequence wrapped in `try/except` that only
logs.  `failS`/`failM` say whether the respective `json.dump` raises.
The returned boolean is whether an exception escapes to the caller —
it is always `false`, because the handler swallows the error. -/
def save_summaries (failS failM : Bool) (c : Cache) (d : Disk) : Disk × Bool :=
  if failS then (d, false)
  else
    let d1 : Disk := { d with summariesFile := some c.summaries }
    if failM then (d1, false)
    else ({ d1 with metadataFile := some c.metadata }, false)

/-- `AISummaryManager.get_summary`: `None` (MISS) unless the id is in
`summaries` and the record's current hash equals the stored
`metadata.get(id, {}).get('hash', '')`. -/
def get_summary (md5 : String → String) (c : Cache) (project_id : String) (project : J) :
    Option String :=
  if (dictGet c.summaries project_id).isNone then none
  else
    let current_hash := generate_project_hash md5 project
    let cached_hash := match dictGet c.metadata project_id with
      | some m => m.hash.getD ""
      | none => ""
    if current_hash ≠ cached_hash then none
    else dictGet c.summaries project_id

/-- The in-memory effect of `AISummaryManager.store_summary` (lines
143–150): upsert the summary and the metadata entry.  `now` is
`datetime.now().isoformat()`. -/
def store_summary_mem (md5 : String → String) (now : String) (c : Cache)
    (project_id : String) (project : J) (summary : String) : Cache :=
  { summaries := dictSet c.summaries project_id summary
    metadata := dictSet c.metadata project_id
      { hash := some (generate_project_hash md5 project)
        created_at := now
        title := (project.getObjD "basic_info").getStrD "title" "Unknown" } }

/-- `AISummaryManager.store_summary` in full: memory update followed by
`_save_summaries`.  Returns (memory, disk, exception-surfaced?). -/
def store_summary (md5 : String → String) (now : String) (failS failM : Bool)
    (c : Cache) (d : Disk) (project_id : String) (project : J) (summary : String) :
    Cache × Disk × Bool :=
  let c' := store_summary_mem md5 now c project_id project summary
  let r := save_summaries failS failM c' d
  (c', r.1, r.2)

/-! ## The relevance ranker and context assembler
(`EnhancedSDGPAIChatbot._get_context_for_query`,
`_get_comprehensive_overview`)

`_create_project_summary` calls the external generation model, so it is
an abstract parameter `create : J → String` here. -/

/-- The relevance score of one record for a query
(`_get_context_for_query`, lines 268–305): fixed weights for each query
word appearing as a substring of a field, plus the three hardcoded topic
boosts.  The query is lowercased and whitespace-split exactly as the
source does at the top of the function. -/
def relevance_score (query : String) (p : J) : Nat :=
  let query_lower := strLower query
  let query_words := pyWords query_lower
  let bi := p.getObjD "basic_info"
  let title := strLower (bi.getStr "title")
  let subtitle := strLower (bi.getStr "subtitle")
  let domains := (bi.getStrArr "domains").map strLower
  let project_types := (bi.getStrArr "projectTypes").map strLower
  let pd := ((p.getObjD "detailed_info").getObjD "content").getObjD "projectDetails"
  let problem := strLower (pd.getStr "problem_statement")
  let solution := strLower (pd.getStr "solution")
  let features := strLower (pd.getStr "features")
  let base := query_words.foldl (fun acc word =>
    acc + (if substr word title then 10 else 0)
        + (if substr word subtitle then 8 else 0)
        + (if substr word problem then 6 else 0)
        + (if substr word solution then 6 else 0)
        + (if substr word features then 4 else 0)
        + (if domains.any (fun d => substr word d) then 7 else 0)
        + (if project_types.any (fun pt => substr word pt) then 7 else 0)) 0
  let health :=
    if substr "health" query_lower || substr "medical" query_lower then
      (if domains.any (fun d => d == "healthcare" || d == "medical" || d == "health")
       then 15 else 0) +
      (if substr "health" problem || substr "medical" problem then 10 else 0)
    else 0
  let education :=
    if substr "education" query_lower || substr "edtech" query_lower then
      (if domains.any (fun d => d == "education" || d == "edtech" || d == "learning")
       then 15 else 0) +
      (if substr "education" problem || substr "learning" problem then 10 else 0)
    else 0
  let ai :=
    if substr "ai" query_lower || substr "artificial intelligence" query_lower then
      (if domains.any
            (fun d => d == "ai" || d == "artificial intelligence" || d == "machine learning")
       then 15 else 0) +
      (if substr "ai" problem || substr "intelligence" problem then 10 else 0)
    else 0
  base + health + education + ai

/-- The project id the loop derives: `basic_info.get('id', f'project_{i}')`. -/
def projectIdAt (i : Nat) (p : J) : String :=
  (p.getObjD "basic_info").getStrD "id" ("project_" ++ toString i)

/-- The scoring loop of `_get_context_for_query` (lines 249–309):
records without `basic_info` are skipped, records with positive score are
written into the `project_scores` dict keyed by project id. -/
def scoresAux (query : String) : Nat → List J → List (String × Nat × J) →
    List (String × Nat × J)
  | _, [], acc => acc
  | i, p :: ps, acc =>
    scoresAux query (i + 1) ps
      (if (p.getEntry "basic_info").isNone then acc
       else
         let score := relevance_score query p
         if score > 0 then dictSet acc (projectIdAt i p) (score, p) else acc)

/-- The `project_scores` dict, in Python-dict insertion order. -/
def project_scores (query : String) (projects : List J) : List (String × Nat × J) :=
  scoresAux query 0 projects []

/-- Stable descending insertion: place `x` before the first element whose
key does not exceed `x`'s. -/
def insertDesc (key : α → Nat) (x : α) : List α → List α
  | [] => [x]
  | y :: ys => if key y ≤ key x then x :: y :: ys else y :: insertDesc key x ys

/-- Stable sort, descending by `key`: the order `sorted(..., key=...,
reverse=True)` produces (Python's sort is stable; equal keys keep their
input order). -/
def stableSortDesc (key : α → Nat) : List α → List α
  | [] => []
  | x :: xs => insertDesc key x (stableSortDesc key xs)

/-- Line 312: `sorted(project_scores.items(), key=lambda x: x[1][0],
reverse=True)`. -/
def sorted_projects (query : String) (projects : List J) : List (String × Nat × J) :=
  stableSortDesc (fun e => e.2.1) (project_scores query projects)

/-- Line 313: the top-10 slice (still carrying ids and scores; the source
then keeps only the records). -/
def top_projects (query : String) (projects : List J) : List (String × Nat × J) :=
  (sorted_projects query projects).take 10

/-- What `_get_comprehensive_overview` computes before rendering: the
total count, the domain histogram, the query-related records, and the
sample records shown when nothing is related. -/
structure Overview where
  total : Nat
  domain_stats : List (String × Nat)
  related : List J
  samples : List J

/-- Bump a histogram bucket: `d[k] = d.get(k, 0) + 1`. -/
def dictInc (l : List (String × Nat)) (k : String) : List (String × Nat) :=
  dictSet l k ((dictGet l k).getD 0 + 1)

/-- `_get_comprehensive_overview` (lines 364–420); its `query` argument is
the already-lowercased query. -/
def comprehensive_overview (query : String) (projects : List J) : Overview :=
  let stats := projects.foldl (fun acc p =>
    if (p.getEntry "basic_info").isNone then acc
    else ((p.getObjD "basic_info").getStrArr "domains").foldl dictInc acc) []
  let related := projects.filter fun p =>
    !(p.getEntry "basic_info").isNone &&
      (let pd := ((p.getObjD "detailed_info").getObjD "content").getObjD "projectDetails"
       let problem := strLower (pd.getStr "problem_statement")
       let solution := strLower (pd.getStr "solution")
       (pyWords query).any fun w => substr w problem || substr w solution)
  { total := projects.length
    domain_stats := stats
    related := related
    samples := if related.isEmpty then projects.take 5 else related.take 5 }

/-- The outcome of `_get_context_for_query`: either the rendered
per-record context (id, record, and the summary text used for it) or the
comprehensive-overview fallback, together with the summary-cache state
after the call. -/
inductive ContextResult where
  | matches (rendered : List (String × J × String)) (cache : Cache)
  | overview (ov : Overview) (cache : Cache)

/-- The cache state a context build leaves behind. -/
def ContextResult.cacheAfter : ContextResult → Cache
  | .matches _ c => c
  | .overview _ c => c

/-- The rendered records of a context build (empty on the overview path). -/
def ContextResult.rendered : ContextResult → List (String × J × String)
  | .matches r _ => r
  | .overview _ _ => []

/-- Did the build take the comprehensive-overview fallback path? -/
def ContextResult.isOverview : ContextResult → Bool
  | .matches _ _ => false
  | .overview _ _ => true

/-- One iteration of the rendering loop (lines 322–360): re-derive the
project id from the loop index, fetch the cached summary, and on MISS
synthesize one on the fly (`_create_project_summary`) — the loop never
writes to the cache, which the threaded state makes explicit. -/
def renderStep (md5 : String → String) (create : J → String)
    (st : List (String × J × String) × Cache) (ip : Nat × J) :
    List (String × J × String) × Cache :=
  let (acc, cache) := st
  let (i, p) := ip
  let project_id := projectIdAt i p
  let summary := match get_summary md5 cache project_id p with
    | some s => s
    | none => create p
  (acc ++ [(project_id, p, summary)], cache)

/-- `_get_context_for_query` (lines 239–362): score and rank, fall back to
the comprehensive overview when nothing scored, otherwise render the
top-10 records read-through against the summary cache. -/
def get_context_for_query (md5 : String → String) (create : J → String)
    (c : Cache) (query : String) (projects : List J) : ContextResult :=
  let relevant := (top_projects query projects).map (fun e => e.2.2)
  if relevant.isEmpty then
    .overview (comprehensive_overview (strLower query) projects) c
  else
    let r := relevant.enum.foldl (renderStep md5 create) ([], c)
    .matches r.1 r.2

/-! ## Conversation memory (`deque(maxlen=10)`,
`_add_to_conversation_history`) -/

/-- One conversation exchange (`{'user': …, 'ai': …, 'timestamp': …}`). -/
structure Exchange where
  user : String
  ai : String
  timestamp : String
  deriving DecidableEq

/-- `conversation_history.append(...)` on a `deque(maxlen=10)`: when the
buffer is full the oldest (leftmost) entry is discarded first. -/
def add_to_conversation_history (h : List Exchange) (e : Exchange) : List Exchange :=
  if h.length = 10 then h.tail ++ [e] else h ++ [e]

/-- A whole sequence of appends. -/
def appendAll (h : List Exchange) (es : List Exchange) : List Exchange :=
  es.foldl add_to_conversation_history h

/-! ## Well-formed records

The Python source accesses record fields defensively but still assumes
the shapes of the data model (string fields hold strings, list fields
hold lists of strings, nested values are dicts): on other shapes it
raises.  Universally quantified theorems therefore restrict to
well-formed records, where the model's defaulting getters coincide with
the source's behaviour. -/

/-- Key absent, or present with a string value. -/
def strOk (j : J) (k : String) : Bool :=
  match j.getEntry k with
  | none => true
  | some (J.str _) => true
  | some _ => false

/-- Key absent, or present with a list-of-strings value. -/
def strArrOk (j : J) (k : String) : Bool :=
  match j.getEntry k with
  | none => true
  | some (J.arr l) => l.all fun x => match x with | J.str _ => true | _ => false
  | some _ => false

/-- Is the value an object? -/
def isObj (j : J) : Bool :=
  match j with | J.obj _ => true | _ => false

/-- Well-formedness of one record, following the data model: every field
the chatbot or the hash reads has the expected shape when present. -/
def WFProject (p : J) : Bool :=
  isObj p &&
  (match p.getEntry "basic_info" with
   | none => true
   | some bi =>
     isObj bi && strOk bi "id" && strOk bi "title" && strOk bi "subtitle" &&
     strOk bi "status" && strOk bi "year" && strOk bi "updatedAt" &&
     strArrOk bi "domains" && strArrOk bi "projectTypes") &&
  (match p.getEntry "detailed_info" with
   | none => true
   | some di =>
     isObj di &&
     (match di.getEntry "content" with
      | none => true
      | some content =>
        isObj content &&
        (match content.getEntry "projectDetails" with
         | none => true
         | some pd =>
           isObj pd && strOk pd "problem_statement" && strOk pd "solution" &&
           strOk pd "features") &&
        (match content.getEntry "team" with
         | none => true
         | some (J.arr _) => true
         | some _ => false) &&
        (match content.getEntry "associations" with
         | none => true
         | some (J.arr l) =>
           l.all fun a => isObj a && strOk a "type" && strOk a "techStack"
         | some _ => false)))

/-! ## Decoding the canonical serializations

To settle distinctness properties of the fingerprint we show the two
`json.dumps` serializations are injective, by exhibiting decoders that
recover every hashed field from the serialized string. -/

/-- Inverse of `hexDig`. -/
def hexVal (c : Char) : Nat :=
  if c = '0' then 0 else if c = '1' then 1 else if c = '2' then 2
  else if c = '3' then 3 else if c = '4' then 4 else if c = '5' then 5
  else if c = '6' then 6 else if c = '7' then 7 else if c = '8' then 8
  else if c = '9' then 9 else if c = 'a' then 10 else if c = 'b' then 11
  else if c = 'c' then 12 else if c = 'd' then 13 else if c = 'e' then 14
  else 15

/-- Inverse of the seven short escapes. -/
def unescShort (e : Char) : Option Char :=
  if e = '"' then some '"' else if e = '\\' then some '\\'
  else if e = 'b' then some '\x08' else if e = 'f' then some '\x0c'
  else if e = 'n' then some '\n' else if e = 'r' then some '\x0d'
  else if e = 't' then some '\t' else none

/-- Decode one character of a JSON string body (the inverse of `escChar`),
returning the character and the remaining input. -/
def unescOne : List Char → Option (Char × List Char)
  | [] => none
  | c :: rest =>
    if c = '"' then none
    else if c = '\\' then
      match rest with
      | [] => none
      | e :: rest2 =>
        if e = 'u' then
          match rest2 with
          | h1 :: h2 :: h3 :: h4 :: rest3 =>
            let v := hexVal h1 * 4096 + hexVal h2 * 256 + hexVal h3 * 16 + hexVal h4
            if 0xd800 ≤ v ∧ v < 0xdc00 then
              match rest3 with
              | b1 :: u1 :: g1 :: g2 :: g3 :: g4 :: rest4 =>
                if b1 = '\\' ∧ u1 = 'u' then
                  let w := hexVal g1 * 4096 + hexVal g2 * 256 + hexVal g3 * 16 + hexVal g4
                  some (Char.ofNat (0x10000 + (v - 0xd800) * 0x400 + (w - 0xdc00)), rest4)
                else none
              | _ => none
            else some (Char.ofNat v, rest3)
          | _ => none
        else (unescShort e).map fun c' => (c', rest2)
    else some (c, rest)

/-- Decode a JSON string body up to its closing quote (fuelled loop). -/
def scanStrF : Nat → List Char → Option (List Char × List Char)
  | _, [] => none
  | fuel, c :: rest =>
    if c = '"' then some ([], rest)
    else
      match fuel with
      | 0 => none
      | fuel' + 1 =>
        match unescOne (c :: rest) with
        | some (c', rest') =>
          (scanStrF fuel' rest').map fun r => (c' :: r.1, r.2)
        | none => none

/-- Strip an expected literal from the head of the input. -/
def dropLit : List Char → List Char → Option (List Char)
  | [], l => some l
  | _ :: _, [] => none
  | p :: ps, c :: cs => if c = p then dropLit ps cs else none

/-- Decode a JSON string literal `"…"`. -/
def parseJStr (fuel : Nat) (l : List Char) : Option (List Char × List Char) :=
  match l with
  | '"' :: rest => scanStrF fuel rest
  | _ => none

/-- Decode the continuation of a JSON string array after its first
element: either `]` or a `, "…"` repetition. -/
def parseStrsAfter (fuel : Nat) (l : List Char) : Option (List String × List Char) :=
  match l with
  | [] => none
  | c :: rest =>
    if c = ']' then some ([], rest)
    else if c = ',' then
      match fuel with
      | 0 => none
      | fuel' + 1 =>
        match rest with
        | [] => none
        | c2 :: rest2 =>
          if c2 = ' ' then
            match parseJStr rest2.length rest2 with
            | some (s, rest3) =>
              (parseStrsAfter fuel' rest3).map fun r => (⟨s⟩ :: r.1, r.2)
            | none => none
          else none
    else none

/-- Decode a JSON array of string literals. -/
def parseJStrs (fuel : Nat) (l : List Char) : Option (List String × List Char) :=
  match l with
  | c :: c2 :: rest =>
    if c = '[' then
      if c2 = ']' then some ([], rest)
      else if c2 = '"' then
        match scanStrF rest.length rest with
        | some (s, rest2) =>
          (parseStrsAfter fuel rest2).map fun r => (⟨s⟩ :: r.1, r.2)
        | none => none
      else none
    else none
  | _ => none

/-- ASCII decimal digit test. -/
def isDigitCh (c : Char) : Bool := 48 ≤ c.toNat && c.toNat ≤ 57

/-- Strip a literal label then decode a JSON string literal. -/
def fieldStr (lbl : String) (l : List Char) : Option (String × List Char) :=
  match dropLit lbl.data l with
  | none => none
  | some r =>
    match parseJStr r.length r with
    | none => none
    | some (s, r2) => some (⟨s⟩, r2)

/-- Strip a literal label then decode a JSON array of string literals. -/
def fieldStrs (lbl : String) (l : List Char) : Option (List String × List Char) :=
  match dropLit lbl.data l with
  | none => none
  | some r => parseJStrs r.length r

/-- Strip a literal label then take a run of decimal digits. -/
def fieldDigits (lbl : String) (l : List Char) : Option (List Char × List Char) :=
  match dropLit lbl.data l with
  | none => none
  | some r => some (r.takeWhile isDigitCh, r.dropWhile isDigitCh)

/-- Decode `content_data_string`, recovering every field of the
`content_data` dict (the team size as its digit string). -/
def decodeContent (l : List Char) : Option (String × String × String × List Char × List String) :=
  (fieldStr "\x7b\"features\": " l).bind fun f =>
  (fieldStr ", \"problem_statement\": " f.2).bind fun p =>
  (fieldStr ", \"solution\": " p.2).bind fun s =>
  (fieldDigits ", \"team_size\": " s.2).bind fun d =>
  (fieldStrs ", \"tech_stack\": " d.2).bind fun t =>
  some (f.1, p.1, s.1, d.1, t.1)

/-- Decode `hash_data_string`, recovering every field of the `hash_data`
dict. -/
def decodeHash (l : List Char) : Option HashData :=
  (fieldStr "\x7b\"content_hash\": " l).bind fun ch =>
  (fieldStrs ", \"domains\": " ch.2).bind fun ds =>
  (fieldStrs ", \"projectTypes\": " ds.2).bind fun pt =>
  (fieldStr ", \"status\": " pt.2).bind fun st =>
  (fieldStr ", \"subtitle\": " st.2).bind fun sub =>
  (fieldStr ", \"title\": " sub.2).bind fun ti =>
  (fieldStr ", \"updated_at\": " ti.2).bind fun up =>
  (fieldStr ", \"year\": " up.2).bind fun yr =>
  some ⟨ti.1, sub.1, st.1, ds.1, pt.1, yr.1, up.1, ch.1⟩

/-! ## The hashed projection of a record

`fingerprintInput` is exactly the data `_generate_project_hash` feeds
into the digest, held un-serialized; the fingerprint depends on a record
only through it. -/

/-- The branch of `_hash_content`: `none` when the content digest is the
`""` sentinel, otherwise the `content_data` that gets serialized. -/
def contentView (p : J) : Option ContentData :=
  let di := p.getObjD "detailed_info"
  if di.falsy || (di.getEntry "content").isNone then none
  else some (contentDataOf ((di.getEntry "content").getD J.null))

/-- All data hashed by `_generate_project_hash`, pre-digest. -/
structure FingerprintInput where
  title : String
  subtitle : String
  status : String
  domains : List String
  projectTypes : List String
  year : String
  updated_at : String
  content : Option ContentData
  deriving DecidableEq

/-- The hashed projection of a record. -/
def fingerprintInput (p : J) : FingerprintInput :=
  let bi := p.getObjD "basic_info"
  { title := bi.getStr "title"
    subtitle := bi.getStr "subtitle"
    status := bi.getStr "status"
    domains := bi.getStrArr "domains"
    projectTypes := bi.getStrArr "projectTypes"
    year := bi.getStr "year"
    updated_at := bi.getStr "updatedAt"
    content := contentView p }

/-! ## Key reordering

`JR p q` says `q` is `p` with the entries of map-like (object) values
reordered — adjacent transpositions of distinct keys, applied at any
depth — while list order and all leaf values are untouched.  This is the
spec's "field ordering within an object". -/

mutual
/-- A certificate that two records are equal up to reordering the
entries of map-like (object) values. -/
inductive JR : J → J → Type where
  | nullR : JR .null .null
  | strR (s : String) : JR (.str s) (.str s)
  | numR (n : Nat) : JR (.num n) (.num n)
  | arrR {l₁ l₂ : List J} : LJR l₁ l₂ → JR (.arr l₁) (.arr l₂)
  | objR {l₁ l₂ : List (String × J)} : EPerm l₁ l₂ → JR (.obj l₁) (.obj l₂)

/-- Pointwise `JR` on lists (array order is significant, so it is kept). -/
inductive LJR : List J → List J → Type where
  | nil : LJR [] []
  | cons {x y : J} {l₁ l₂ : List J} : JR x y → LJR l₁ l₂ → LJR (x :: l₁) (y :: l₂)

/-- Object entry lists equal up to reordering distinct keys, with values
related by `JR`. -/
inductive EPerm : List (String × J) → List (String × J) → Type where
  | nil : EPerm [] []
  | cons {k : String} {v₁ v₂ : J} {l₁ l₂ : List (String × J)} :
      JR v₁ v₂ → EPerm l₁ l₂ → EPerm ((k, v₁) :: l₁) ((k, v₂) :: l₂)
  | swap {k₁ k₂ : String} {v₁ v₂ : J} {l : List (String × J)} :
      k₁ ≠ k₂ → EPerm ((k₁, v₁) :: (k₂, v₂) :: l) ((k₂, v₂) :: (k₁, v₁) :: l)
  | trans {l₁ l₂ l₃ : List (String × J)} :
      EPerm l₁ l₂ → EPerm l₂ l₃ → EPerm l₁ l₃
end

/-! ## Spec-side description of ranking order, and concrete instances -/

/-- The positively-scored records in input order starting from loop
index `i`: the spec-side description of the pre-sort ranking state
("tie-break is insertion order of the input list"). -/
def scoresSpecAux (query : String) : Nat → List J → List (String × Nat × J)
  | _, [] => []
  | i, p :: ps =>
    if (p.getEntry "basic_info").isNone then scoresSpecAux query (i + 1) ps
    else if relevance_score query p > 0 then
      (projectIdAt i p, relevance_score query p, p) :: scoresSpecAux query (i + 1) ps
    else scoresSpecAux query (i + 1) ps

/-- The positively-scored records in input order.  With distinct ids this
coincides with the `project_scores` dict in insertion order, which the
stability theorem proves. -/
def scores_in_input_order (query : String) (projects : List J) :
    List (String × Nat × J) :=
  scoresSpecAux query 0 projects

/-- The ids the scoring loop derives, starting from loop index `i`. -/
def idsFrom : Nat → List J → List String
  | _, [] => []
  | i, p :: ps =>
    if (p.getEntry "basic_info").isNone then idsFrom (i + 1) ps
    else projectIdAt i p :: idsFrom (i + 1) ps

/-- The ids of the records that enter the scoring dict. -/
def idsOf (projects : List J) : List String := idsFrom 0 projects

/-- An injective stand-in digest (`Function.Injective md5Tag` holds, and
its output is never empty), used to instantiate abstract-digest
hypotheses in witnesses. -/
def md5Tag (s : String) : String := "#" ++ s

/-- A stand-in digest with 32-character output, as MD5's `hexdigest`. -/
def md5Len32 (_ : String) : String := "0123456789abcdef0123456789abcdef"

/-- A fresh cache (both dicts empty). -/
def emptyCache : Cache := ⟨[], []⟩

/-- A disk with neither backing file present. -/
def emptyDisk : Disk := ⟨none, none⟩

/-- Scenario A's record: `{id: "p1", title: "Smart Health Monitor",
domains: ["Healthcare"]}`, with the fields nested under `basic_info` as
in the scraped data. -/
def pHealth : J :=
  .obj [("basic_info", .obj
    [("id", .str "p1"), ("title", .str "Smart Health Monitor"),
     ("domains", .arr [.str "Healthcare"])])]

/-- Two records that tie on the query `"app"`. -/
def pApp1 : J :=
  .obj [("basic_info", .obj [("id", .str "a1"), ("title", .str "App One")])]

/-- Second of the tying records. -/
def pApp2 : J :=
  .obj [("basic_info", .obj [("id", .str "a2"), ("title", .str "App Two")])]

/-- Records differing only in a hashed field (the title). -/
def pTitleA : J := .obj [("basic_info", .obj [("title", .str "A")])]

/-- Its counterpart with a different title. -/
def pTitleB : J := .obj [("basic_info", .obj [("title", .str "B")])]

/-- A conversation exchange with a numbered user line. -/
def exch (n : Nat) : Exchange := ⟨toString n, "reply", "2024-01-01"⟩

/-- The cache state after one `store_summary` on a fresh manager. -/
def cW : Cache :=
  (store_summary md5Tag "t" false false emptyCache emptyDisk "p1" pHealth "S").1

/-- The metadata entry that `store_summary` writes for `pHealth`. -/
def mW : MetaEntry :=
  ⟨some (generate_project_hash md5Tag pHealth), "t", "Smart Health Monitor"⟩

/-- A cache whose summaries store has an entry but whose metadata store
is empty (as after a partially lost or hand-edited cache directory). -/
def c10c : Cache := ⟨[("p1", "S1")], []⟩

/-- The outcome of a put on which the metadata dump raises. -/
def c3run : Cache × Disk × Bool :=
  store_summary md5Tag "t" false true emptyCache emptyDisk "p1" pHealth "S"

/-- The first exchange of the eviction scenario. -/
def ex0 : Exchange := exch 0

/-- The ten exchanges appended after it. -/
def exRest : List Exchange := (List.range 10).map fun n => exch (n + 1)

/-- Pointwise lift of `JR` to optional values. -/
def JROpt : Option J → Option J → Type
  | none, none => PUnit
  | some a, some b => JR a b
  | _, _ => PEmpty

/-- `pHealth` with the first two keys of its `basic_info` object swapped:
a key reordering of `pHealth`. -/
def pHealthSwap : J :=
  .obj [("basic_info", .obj
    [("title", .str "Smart Health Monitor"), ("id", .str "p1"),
     ("domains", .arr [.str "Healthcare"])])]

/-- A derivation witnessing that `pHealthSwap` is a key reordering of
`pHealth`: swap the two leading entries of the nested object. -/
def jrHealthSwap : JR pHealth pHealthSwap :=
  .objR (.cons (.objR (.swap (by decide))) .nil)

/-- A record whose `domains` list is `["A", "B"]`. -/
def pDomAB : J :=
  .obj [("basic_info", .obj [("domains", .arr [.str "A", .str "B"])])]

/-- The same record with the `domains` list reordered to `["B", "A"]`. -/
def pDomBA : J :=
  .obj [("basic_info", .obj [("domains", .arr [.str "B", .str "A"])])]

mutual
/-- Every record is a (trivial) key reordering of itself. -/
def JR_refl : (j : J) → JR j j
  | .null => .nullR
  | .str s => .strR s
  | .num n => .numR n
  | .arr l => .arrR (LJR_refl l)
  | .obj l => .objR (EPerm_refl l)

/-- Reflexivity of `LJR`. -/
def LJR_refl : (l : List J) → LJR l l
  | [] => .nil
  | x :: xs => .cons (JR_refl x) (LJR_refl xs)

/-- Reflexivity of `EPerm`. -/
def EPerm_refl : (l : List (String × J)) → EPerm l l
  | [] => .nil
  | (_, v) :: es => .cons (JR_refl v) (EPerm_refl es)
end

mutual
/-- Key reorderings compose. -/
def JR_trans : {a b c : J} → JR a b → JR b c → JR a c
  | _, _, _, .nullR, .nullR => .nullR
  | _, _, _, .strR s, .strR _ => .strR s
  | _, _, _, .numR n, .numR _ => .numR n
  | _, _, _, .arrR h1, .arrR h2 => .arrR (LJR_trans h1 h2)
  | _, _, _, .objR h1, .objR h2 => .objR (.trans h1 h2)

/-- Transitivity of `LJR`. -/
def LJR_trans : {l₁ l₂ l₃ : List J} → LJR l₁ l₂ → LJR l₂ l₃ → LJR l₁ l₃
  | _, _, _, .nil, .nil => .nil
  | _, _, _, .cons hx h1, .cons hy h2 =>
    .cons (JR_trans hx hy) (LJR_trans h1 h2)
end

/-- Reflexivity of `JROpt`. -/
def JROpt_refl : (o : Option J) → JROpt o o
  | none => .unit
  | some a => JR_refl a

/-- Transitivity of `JROpt`. -/
def JROpt_trans : {o₁ o₂ o₃ : Option J} →
    JROpt o₁ o₂ → JROpt o₂ o₃ → JROpt o₁ o₃
  | none, none, none, _, _ => .unit
  | some _, some _, some _, h1, h2 => JR_trans h1 h2

/-- Key-reordered entry lists have `JR`-related first-match lookups. -/
def EPerm_alookup : {l₁ l₂ : List (String × J)} → EPerm l₁ l₂ →
    (a : String) → JROpt (J.alookup a l₁) (J.alookup a l₂)
  | _, _, .nil, _ => .unit
  | _, _, @EPerm.cons k v₁ v₂ m₁ m₂ hv h, a => by
    by_cases hk : (k == a) = true
    · have eL : J.alookup a ((k, v₁) :: m₁) = some v₁ := by
        rw [J.alookup, if_pos hk]
      have eR : J.alookup a ((k, v₂) :: m₂) = some v₂ := by
        rw [J.alookup, if_pos hk]
      rw [eL, eR]
      exact hv
    · have eL : J.alookup a ((k, v₁) :: m₁) = J.alookup a m₁ := by
        rw [J.alookup, if_neg hk]
      have eR : J.alookup a ((k, v₂) :: m₂) = J.alookup a m₂ := by
        rw [J.alookup, if_neg hk]
      rw [eL, eR]
      exact EPerm_alookup h a
  | _, _, @EPerm.swap k₁ k₂ v₁ v₂ m hne, a => by
    by_cases h1 : (k₁ == a) = true
    · have h2 : ¬(k₂ == a) = true := by
        intro hx
        exact hne ((beq_iff_eq.mp h1).trans (beq_iff_eq.mp hx).symm)
      have eL : J.alookup a ((k₁, v₁) :: (k₂, v₂) :: m) = some v₁ := by
        rw [J.alookup, if_pos h1]
      have eR : J.alookup a ((k₂, v₂) :: (k₁, v₁) :: m) = some v₁ := by
        rw [J.alookup, if_neg h2, J.alookup, if_pos h1]
      rw [eL, eR]
      exact JR_refl v₁
    · by_cases h2 : (k₂ == a) = true
      · have eL : J.alookup a ((k₁, v₁) :: (k₂, v₂) :: m) = some v₂ := by
          rw [J.alookup, if_neg h1, J.alookup, if_pos h2]
        have eR : J.alookup a ((k₂, v₂) :: (k₁, v₁) :: m) = some v₂ := by
          rw [J.alookup, if_pos h2]
        rw [eL, eR]
        exact JR_refl v₂
      · have eL : J.alookup a ((k₁, v₁) :: (k₂, v₂) :: m) = J.alookup a m := by
          rw [J.alookup, if_neg h1, J.alookup, if_neg h2]
        have eR : J.alookup a ((k₂, v₂) :: (k₁, v₁) :: m) = J.alookup a m := by
          rw [J.alookup, if_neg h2, J.alookup, if_neg h1]
        rw [eL, eR]
        exact JROpt_refl _
  | _, _, .trans h1 h2, a => JROpt_trans (EPerm_alookup h1 a) (EPerm_alookup h2 a)

/-- Key-reordered records have related `getEntry` results. -/
def JR_getEntry {p q : J} (h : JR p q) (k : String) :
    JROpt (p.getEntry k) (q.getEntry k) :=
  match p, q, h with
  | _, _, .nullR => .unit
  | _, _, .strR _ => .unit
  | _, _, .numR _ => .unit
  | _, _, .arrR _ => .unit
  | _, _, .objR he => EPerm_alookup he k

/-- `JROpt` transported through `Option.getD` with the empty object. -/
def JROpt_getD : {o₁ o₂ : Option J} → JROpt o₁ o₂ →
    JR (o₁.getD (J.obj [])) (o₂.getD (J.obj []))
  | none, none, _ => JR_refl _
  | some _, some _, hj => hj

/-- Key-reordered records have related `getObjD` results. -/
def JR_getObjD {p q : J} (h : JR p q) (k : String) :
    JR (p.getObjD k) (q.getObjD k) :=
  JROpt_getD (JR_getEntry h k)

/-- The array extraction of related optional values. -/
def JROpt_arr : {o₁ o₂ : Option J} → JROpt o₁ o₂ →
    LJR (match o₁ with | some (J.arr l) => l | _ => [])
      (match o₂ with | some (J.arr l) => l | _ => [])
  | none, none, _ => .nil
  | some a, some b, hj =>
    match a, b, hj with
    | _, _, .nullR => .nil
    | _, _, .strR _ => .nil
    | _, _, .numR _ => .nil
    | _, _, .arrR hl => hl
    | _, _, .objR _ => .nil

/-- Key-reordered records have pointwise-related `getArr` results. -/
def JR_getArr {p q : J} (h : JR p q) (k : String) :
    LJR (p.getArr k) (q.getArr k) :=
  JROpt_arr (JR_getEntry h k)

/-- Rebuild the `hash_data` dict from the hashed projection: the
fingerprint factors through `fingerprintInput` via this function. -/
def hashDataOfView (md5 : String → String) (v : FingerprintInput) : HashData :=
  { title := v.title
    subtitle := v.subtitle
    status := v.status
    domains := v.domains
    projectTypes := v.projectTypes
    year := v.year
    updated_at := v.updated_at
    content_hash :=
      match v.content with
      | none => ""
      | some cd => md5 ⟨content_data_string cd⟩ }

/-- A context build for `"health"` over one matching record against an
empty cache. -/
def c1res : ContextResult :=
  get_context_for_query md5Tag (fun _ => "S") emptyCache "health" [pHealth]

/-! # Theorems

Helper lemmas first, then one named theorem per claim (with its witness
or counterexample). -/

theorem find_cons_pos {α : Type} (p : α → Bool) (e : α) (l : List α)
    (h : p e = true) : (e :: l).find? p = some e := by
  simp [List.find?, h]

theorem find_cons_neg {α : Type} (p : α → Bool) (e : α) (l : List α)
    (h : p e = false) : (e :: l).find? p = l.find? p := by
  simp [List.find?, h]

theorem find_map_upd {α : Type} (k : String) (v : α) :
    ∀ l : List (String × α), l.any (fun e => e.1 == k) = true →
      (l.map fun e => if e.1 == k then (k, v) else e).find? (fun e => e.1 == k) =
        some (k, v) := by
  intro l h
  induction l with
  | nil => simp at h
  | cons e es ih =>
    simp only [List.map_cons]
    by_cases he : (e.1 == k) = true
    · have hh : (if (e.1 == k) = true then (k, v) else e) = (k, v) := by simp [he]
      rw [hh, find_cons_pos (fun e => e.1 == k) (k, v) _ (by simp)]
    · have he' : (e.1 == k) = false := by simpa using he
      have hh : (if (e.1 == k) = true then (k, v) else e) = e := by simp [he']
      rw [hh, find_cons_neg (fun e => e.1 == k) e _ he']
      simp only [List.any_cons, he', Bool.false_or] at h
      exact ih h

theorem find_append_single {α : Type} (k : String) (v : α) :
    ∀ l : List (String × α), l.any (fun e => e.1 == k) = false →
      (l ++ [(k, v)]).find? (fun e => e.1 == k) = some (k, v) := by
  intro l h
  induction l with
  | nil => exact find_cons_pos (fun e => e.1 == k) (k, v) [] (by simp)
  | cons e es ih =>
    simp only [List.any_cons, Bool.or_eq_false_iff] at h
    rw [List.cons_append, find_cons_neg (fun e => e.1 == k) e _ h.1, ih h.2]

theorem dictGet_dictSet_self {α : Type} (l : List (String × α)) (k : String) (v : α) :
    dictGet (dictSet l k v) k = some v := by
  unfold dictSet dictGet
  by_cases h : l.any (fun e => e.1 == k) = true
  · rw [if_pos h, find_map_upd k v l h]
    rfl
  · have h' : l.any (fun e => e.1 == k) = false := Bool.eq_false_iff.mpr h
    rw [if_neg h, find_append_single k v l h']
    rfl

/-- C2: `put(id, r, s)` followed immediately by `get(id, r)` returns `s`
(whatever the persistence outcome), and `get(id, r')` returns MISS
whenever `r'`'s fingerprint differs from the fingerprint stored with the
metadata entry for `id`. -/
theorem c2_cache_put_get (md5 : String → String) (now : String) (failS failM : Bool)
    (c : Cache) (d : Disk) (pid : String) (p : J) (s : String) :
    get_summary md5 (store_summary md5 now failS failM c d pid p s).1 pid p = some s ∧
    (∀ (c' : Cache) (p' : J) (m : MetaEntry),
      dictGet c'.metadata pid = some m →
      generate_project_hash md5 p' ≠ m.hash.getD "" →
      get_summary md5 c' pid p' = none) := by
  constructor
  · have hfst : (store_summary md5 now failS failM c d pid p s).1 =
        store_summary_mem md5 now c pid p s := rfl
    rw [hfst]
    unfold get_summary store_summary_mem
    rw [dictGet_dictSet_self, dictGet_dictSet_self]
    simp
  · intro c' p' m hm hne
    unfold get_summary
    cases hsum : dictGet c'.summaries pid with
    | none => simp [hsum]
    | some sv => simp [hsum, hm, hne]

set_option maxRecDepth 40000 in
/-- Witness for C2 at concrete inputs: a fresh store followed by a get
hits, and a get with a record of different fingerprint misses. -/
theorem c2_cache_put_get_witness :
    get_summary md5Tag cW "p1" pHealth = some "S" ∧
    dictGet cW.metadata "p1" = some mW ∧
    generate_project_hash md5Tag pTitleA ≠ mW.hash.getD "" ∧
    get_summary md5Tag cW "p1" pTitleA = none :=
  ⟨(c2_cache_put_get md5Tag "t" false false emptyCache emptyDisk "p1" pHealth "S").1,
   by decide, by decide,
   (c2_cache_put_get md5Tag "t" false false emptyCache emptyDisk "p1" pHealth "S").2
     cW pTitleA mW (by decide) (by decide)⟩

/-- C10: when the summaries store has an entry for an id but the metadata
store has no entry (or its entry lacks the `hash` key), the stored hash
defaults to `""`, which can never equal the 32-character hex digest, so
`get_summary` returns MISS for every record. -/
theorem c10_missing_metadata_miss (md5 : String → String)
    (h32 : ∀ s, (md5 s).length = 32) (c : Cache) (pid : String) (p : J)
    (_hsum : (dictGet c.summaries pid).isSome = true)
    (hmeta : dictGet c.metadata pid = none ∨
      ∃ m, dictGet c.metadata pid = some m ∧ m.hash = none) :
    get_summary md5 c pid p = none := by
  have hne : generate_project_hash md5 p ≠ "" := by
    intro h
    have hl := h32 ⟨hash_data_string (projectHashData md5 p)⟩
    rw [generate_project_hash] at h
    rw [h] at hl
    simp [String.length] at hl
  unfold get_summary
  cases hs : dictGet c.summaries pid with
  | none => simp [hs]
  | some sv =>
    rcases hmeta with hm | ⟨m, hm, hh⟩
    · simp [hs, hm, hne]
    · simp [hs, hm, hh, hne]

/-- Witness for C10: a summaries entry without metadata misses for a
concrete record under a 32-character digest. -/
theorem c10_missing_metadata_miss_witness :
    (∀ s, (md5Len32 s).length = 32) ∧
    (dictGet c10c.summaries "p1").isSome = true ∧
    dictGet c10c.metadata "p1" = none ∧
    get_summary md5Len32 c10c "p1" pHealth = none :=
  ⟨fun _ => rfl, by decide, by decide,
   c10_missing_metadata_miss md5Len32 (fun _ => rfl) c10c "p1" pHealth (by decide)
     (Or.inl (by decide))⟩

/-- C3 fails on the code: with a metadata dump that raises after a
successful summaries dump, `store_summary` returns normally (no error
surfaced) while only the summaries file was written — a partial write
reported as success. -/
theorem c3_partial_write_cex :
    c3run.2.1.summariesFile = some [("p1", "S")] ∧
    c3run.2.1.metadataFile = none ∧
    c3run.2.2 = false := by
  refine ⟨rfl, rfl, rfl⟩

/-- C3 amended: `store_summary` attempts to write both stores, but
`_save_summaries` swallows any failure (it only logs): no error ever
surfaces to the caller, the summaries file is written unless its own dump
fails, and the metadata file is written only when both dumps succeed —
so a partial write is indistinguishable from success. -/
theorem c3_save_swallows_errors (md5 : String → String) (now : String)
    (failS failM : Bool) (c : Cache) (d : Disk) (pid : String) (p : J) (s : String) :
    (store_summary md5 now failS failM c d pid p s).2.2 = false ∧
    (store_summary md5 now failS failM c d pid p s).2.1.summariesFile =
      (if failS then d.summariesFile
       else some (store_summary_mem md5 now c pid p s).summaries) ∧
    (store_summary md5 now failS failM c d pid p s).2.1.metadataFile =
      (if failS || failM then d.metadataFile
       else some (store_summary_mem md5 now c pid p s).metadata) := by
  unfold store_summary save_summaries
  cases failS <;> cases failM <;> simp

/-- C4 (Scenario A): the record `{id: "p1", title: "Smart Health
Monitor", domains: ["Healthcare"]}` scores exactly 32 for the query
`"health"`: title substring (10) + domain-list substring (7) +
health-topic domain boost (15). -/
theorem c4_scenario_health_score : relevance_score "health" pHealth = 32 := by
  decide

/-- C7 (Scenario C): for a record with no `detailed_info` key, the nested
content digest placed in `hash_data` equals `_hash_content` applied to an
empty content object, both being the `""` sentinel. -/
theorem c7_missing_detailed_info_digest (md5 : String → String) (p : J)
    (h : p.getEntry "detailed_info" = none) :
    (projectHashData md5 p).content_hash = hash_content md5 (J.obj []) ∧
    hash_content md5 (J.obj []) = "" := by
  constructor
  · show hash_content md5 (p.getObjD "detailed_info") = _
    rw [J.getObjD, h]
    rfl
  · rfl

/-- Witness for C7 at a record with no `detailed_info`. -/
theorem c7_missing_detailed_info_digest_witness :
    pHealth.getEntry "detailed_info" = none ∧
    ((projectHashData md5Tag pHealth).content_hash = hash_content md5Tag (J.obj []) ∧
      hash_content md5Tag (J.obj []) = "") :=
  ⟨rfl, c7_missing_detailed_info_digest md5Tag pHealth rfl⟩

theorem appendAll_eq_drop (es : List Exchange) :
    ∀ h : List Exchange, h.length ≤ 10 →
      appendAll h es = (h ++ es).drop (h.length + es.length - 10) := by
  induction es with
  | nil =>
    intro h hle
    simp only [appendAll, List.foldl_nil, List.append_nil, List.length_nil]
    rw [Nat.add_zero, Nat.sub_eq_zero_of_le hle, List.drop_zero]
  | cons e es ih =>
    intro h hle
    have step : appendAll h (e :: es) =
        appendAll (add_to_conversation_history h e) es := rfl
    rw [step]
    by_cases hf : h.length = 10
    · have hpush : add_to_conversation_history h e = h.tail ++ [e] := by
        unfold add_to_conversation_history
        rw [if_pos hf]
      cases h with
      | nil => simp at hf
      | cons x t =>
        rw [hpush]
        have htl : (x :: t).tail = t := rfl
        rw [htl]
        have hlen : (t ++ [e]).length ≤ 10 := by
          simp only [List.length_append, List.length_singleton, List.length_cons, List.length_nil]
          simp only [List.length_cons] at hf
          omega
        rw [ih (t ++ [e]) hlen]
        have harr : (t ++ [e]) ++ es = t ++ e :: es := by
          rw [List.append_assoc]
          rfl
        rw [harr]
        have hn1 : (t ++ [e]).length + es.length - 10 = es.length := by
          simp only [List.length_append, List.length_singleton, List.length_cons, List.length_nil]
          simp only [List.length_cons] at hf
          omega
        rw [hn1]
        have hn2 : (x :: t).length + (e :: es).length - 10 = es.length + 1 := by
          simp only [List.length_cons] at hf ⊢
          omega
        rw [hn2]
        rw [List.cons_append, List.drop_succ_cons]
    · have hpush : add_to_conversation_history h e = h ++ [e] := by
        unfold add_to_conversation_history
        rw [if_neg hf]
      rw [hpush]
      have hlen : (h ++ [e]).length ≤ 10 := by
        simp only [List.length_append, List.length_singleton, List.length_cons, List.length_nil]
        omega
      rw [ih (h ++ [e]) hlen]
      have harr : (h ++ [e]) ++ es = h ++ e :: es := by
        rw [List.append_assoc]
        rfl
      rw [harr]
      have hn : (h ++ [e]).length + es.length - 10 =
          h.length + (e :: es).length - 10 := by
        simp only [List.length_append, List.length_singleton, List.length_cons, List.length_nil]
        omega
      rw [hn]

/-- C8: starting from an empty buffer, eleven appends leave exactly the
last ten exchanges in insertion order; in particular, if the first
exchange does not reappear among the later ten, it is absent. -/
theorem c8_conversation_eviction (e : Exchange) (rest : List Exchange)
    (h : rest.length = 10) :
    appendAll [] (e :: rest) = rest ∧
    (e ∉ rest → e ∉ appendAll [] (e :: rest)) := by
  have key := appendAll_eq_drop (e :: rest) [] (by simp)
  simp only [List.nil_append, List.length_nil, List.length_cons, h,
    Nat.zero_add] at key
  have : 10 + 1 - 10 = 1 := rfl
  rw [this, List.drop_succ_cons, List.drop_zero] at key
  exact ⟨key, fun hn => by rwa [key]⟩

/-- Witness for C8: eleven concrete appends. -/
theorem c8_conversation_eviction_witness :
    exRest.length = 10 ∧ ex0 ∉ exRest ∧
    appendAll [] (ex0 :: exRest) = exRest ∧ ex0 ∉ appendAll [] (ex0 :: exRest) :=
  ⟨by decide, by decide,
   (c8_conversation_eviction ex0 exRest (by decide)).1,
   (c8_conversation_eviction ex0 exRest (by decide)).2 (by decide)⟩

theorem renderFold_cache (md5 : String → String) (create : J → String)
    (l : List (Nat × J)) :
    ∀ (acc : List (String × J × String)) (c : Cache),
      (l.foldl (renderStep md5 create) (acc, c)).2 = c := by
  induction l with
  | nil => intro acc c; rfl
  | cons ip l ih =>
    intro acc c
    rw [List.foldl_cons]
    have hstep : renderStep md5 create (acc, c) ip =
        (acc ++ [(projectIdAt ip.1 ip.2, ip.2,
          match get_summary md5 c (projectIdAt ip.1 ip.2) ip.2 with
          | some s => s
          | none => create ip.2)], c) := rfl
    rw [hstep]
    exact ih _ c

/-- C1 fails on the code: the rendering loop of `_get_context_for_query`
synthesizes a summary on MISS (line 329) but never calls
`store_summary`; after this concrete build the rendered record still has
no cache entry at all. -/
theorem c1_context_build_miss_not_stored_cex :
    c1res.rendered = [("p1", pHealth, "S")] ∧
    c1res.cacheAfter = emptyCache ∧
    get_summary md5Tag c1res.cacheAfter "p1" pHealth = none :=
  ⟨rfl, rfl, rfl⟩

/-- C1 amended: during a context build a MISS is repaired only for the
rendered text — the summary is synthesized on the fly and not stored —
so the Summary Cache is left exactly as it was, whatever the query,
records, cache state or digest. -/
theorem c1_context_build_cache_unchanged (md5 : String → String)
    (create : J → String) (c : Cache) (query : String) (projects : List J) :
    (get_context_for_query md5 create c query projects).cacheAfter = c := by
  unfold get_context_for_query
  by_cases h : ((top_projects query projects).map (fun e => e.2.2)).isEmpty
  · rw [if_pos h]
    rfl
  · rw [if_neg h]
    exact renderFold_cache md5 create _ [] c

theorem pyIsSpace_toLower {c : Char} (h : pyIsSpace c = true) :
    c.toLower = c := by
  simp only [pyIsSpace, Bool.or_eq_true, beq_iff_eq] at h
  rcases h with ((((((((((h | h) | h) | h) | h) | h) | h) | h) | h) | h) | h) | h <;>
    subst h <;> decide

theorem strLower_space (q : String) (hq : ∀ ch ∈ q.data, pyIsSpace ch = true) :
    ∀ ch ∈ (strLower q).data, pyIsSpace ch = true := by
  intro ch hch
  simp only [strLower, List.mem_map] at hch
  obtain ⟨c, hc, rfl⟩ := hch
  rw [pyIsSpace_toLower (hq c hc)]
  exact hq c hc

theorem splitOnP_all_space :
    ∀ l : List Char, (∀ c ∈ l, pyIsSpace c = true) →
      ((l.splitOnP pyIsSpace).filter (fun w => !w.isEmpty)) = [] := by
  intro l
  induction l with
  | nil => intro _; rfl
  | cons c cs ih =>
    intro h
    rw [List.splitOnP_cons, if_pos (h c (List.mem_cons_self c cs))]
    rw [List.filter_cons]
    simp only [List.isEmpty_nil, Bool.not_true, Bool.false_eq_true, if_false]
    exact ih fun x hx => h x (List.mem_cons_of_mem c hx)

theorem pyWords_space (q : String) (hq : ∀ ch ∈ q.data, pyIsSpace ch = true) :
    pyWords q = [] := by
  unfold pyWords
  rw [splitOnP_all_space q.data hq]
  rfl

theorem listStarts_mem : ∀ needle hay : List Char,
    listStarts needle hay = true → ∀ c ∈ needle, c ∈ hay := by
  intro needle
  induction needle with
  | nil => intro hay _ c hc; simp at hc
  | cons a as ih =>
    intro hay h c hc
    cases hay with
    | nil => simp [listStarts] at h
    | cons b bs =>
      simp only [listStarts, Bool.and_eq_true, beq_iff_eq] at h
      rcases List.mem_cons.mp hc with rfl | hc'
      · exact h.1 ▸ List.mem_cons_self b bs
      · exact List.mem_cons_of_mem b (ih bs h.2 c hc')

theorem listInside_mem : ∀ needle hay : List Char,
    listInside needle hay = true → ∀ c ∈ needle, c ∈ hay := by
  intro needle hay
  induction hay with
  | nil =>
    intro h c hc
    cases needle with
    | nil => simp at hc
    | cons a as => simp [listInside, List.isEmpty] at h
  | cons b bs ih =>
    intro h c hc
    rw [listInside, Bool.or_eq_true] at h
    rcases h with h | h
    · exact listStarts_mem needle (b :: bs) h c hc
    · exact List.mem_cons_of_mem b (ih h c hc)

theorem substr_space_false (w q : String)
    (hq : ∀ ch ∈ q.data, pyIsSpace ch = true)
    (c : Char) (hc : c ∈ w.data) (hcs : pyIsSpace c = false) :
    substr w q = false := by
  cases hsub : substr w q with
  | false => rfl
  | true =>
    unfold substr at hsub
    have := hq c (listInside_mem w.data q.data hsub c hc)
    rw [hcs] at this
    cases this

theorem relevance_score_space (query : String)
    (hq : ∀ ch ∈ query.data, pyIsSpace ch = true) (p : J) :
    relevance_score query p = 0 := by
  have hql := strLower_space query hq
  have hwords : pyWords (strLower query) = [] := pyWords_space _ hql
  have hhealth : substr "health" (strLower query) = false :=
    substr_space_false _ _ hql 'h' (by decide) (by decide)
  have hmedical : substr "medical" (strLower query) = false :=
    substr_space_false _ _ hql 'm' (by decide) (by decide)
  have heducation : substr "education" (strLower query) = false :=
    substr_space_false _ _ hql 'e' (by decide) (by decide)
  have hedtech : substr "edtech" (strLower query) = false :=
    substr_space_false _ _ hql 'e' (by decide) (by decide)
  have hai : substr "ai" (strLower query) = false :=
    substr_space_false _ _ hql 'a' (by decide) (by decide)
  have haint : substr "artificial intelligence" (strLower query) = false :=
    substr_space_false _ _ hql 'a' (by decide) (by decide)
  unfold relevance_score
  simp [hwords, hhealth, hmedical, heducation, hedtech, hai, haint]

theorem scoresAux_space (query : String)
    (hq : ∀ ch ∈ query.data, pyIsSpace ch = true) :
    ∀ (ps : List J) (i : Nat) (acc : List (String × Nat × J)),
      scoresAux query i ps acc = acc := by
  intro ps
  induction ps with
  | nil => intro i acc; rfl
  | cons p ps ih =>
    intro i acc
    rw [scoresAux]
    rcases hbi : (p.getEntry "basic_info").isNone with _ | _
    · rw [relevance_score_space query hq p]
      simp only [hbi, Bool.false_eq_true, if_false, gt_iff_lt, Nat.lt_irrefl,
        if_false]
      exact ih (i + 1) acc
    · simp only [hbi, if_true]
      exact ih (i + 1) acc

/-- C6 (Scenario B): an empty or whitespace-only query scores zero on
every record, `project_scores` stays empty, and the context build takes
the comprehensive-overview path (total count, domain histogram, sample
records) instead of failing. -/
theorem c6_empty_query_overview (md5 : String → String) (create : J → String)
    (c : Cache) (query : String) (projects : List J)
    (hq : ∀ ch ∈ query.data, pyIsSpace ch = true) :
    (∀ p : J, relevance_score query p = 0) ∧
    project_scores query projects = [] ∧
    get_context_for_query md5 create c query projects =
      .overview (comprehensive_overview (strLower query) projects) c ∧
    (comprehensive_overview (strLower query) projects).total = projects.length := by
  have hscore := relevance_score_space query hq
  have hempty : project_scores query projects = [] :=
    scoresAux_space query hq projects 0 []
  refine ⟨hscore, hempty, ?_, rfl⟩
  unfold get_context_for_query
  have htop : top_projects query projects = [] := by
    unfold top_projects sorted_projects
    rw [hempty]
    rfl
  rw [htop]
  rfl

/-- Witness for C6 at the whitespace query `" "`. -/
theorem c6_empty_query_overview_witness :
    (∀ ch ∈ (" " : String).data, pyIsSpace ch = true) ∧
    ((∀ p : J, relevance_score " " p = 0) ∧
      project_scores " " [pHealth] = [] ∧
      get_context_for_query md5Tag (fun _ => "S") emptyCache " " [pHealth] =
        .overview (comprehensive_overview (strLower " ") [pHealth]) emptyCache ∧
      (comprehensive_overview (strLower " ") [pHealth]).total = 1) :=
  ⟨by decide,
   c6_empty_query_overview md5Tag (fun _ => "S") emptyCache " " [pHealth] (by decide)⟩

theorem dictSet_fresh {α : Type} (l : List (String × α)) (k : String) (v : α)
    (h : l.any (fun e => e.1 == k) = false) : dictSet l k v = l ++ [(k, v)] := by
  unfold dictSet
  rw [if_neg]
  intro hc
  rw [hc] at h
  cases h

theorem scoresAux_eq_spec (query : String) :
    ∀ (ps : List J) (i : Nat) (acc : List (String × Nat × J)),
      (idsFrom i ps).Nodup →
      (∀ id ∈ idsFrom i ps, acc.any (fun e => e.1 == id) = false) →
      scoresAux query i ps acc = acc ++ scoresSpecAux query i ps := by
  intro ps
  induction ps with
  | nil =>
    intro i acc _ _
    simp [scoresAux, scoresSpecAux]
  | cons p ps ih =>
    intro i acc hnd hfresh
    by_cases hbi : (p.getEntry "basic_info").isNone = true
    · rw [idsFrom, if_pos hbi] at hnd hfresh
      rw [scoresAux, if_pos hbi, scoresSpecAux, if_pos hbi]
      exact ih (i + 1) acc hnd hfresh
    · rw [idsFrom, if_neg hbi] at hnd hfresh
      rw [List.nodup_cons] at hnd
      by_cases hsc : relevance_score query p > 0
      · rw [scoresAux, if_neg hbi, if_pos hsc, scoresSpecAux, if_neg hbi, if_pos hsc]
        rw [dictSet_fresh acc (projectIdAt i p) _
          (hfresh _ (List.mem_cons_self _ _))]
        rw [ih (i + 1) (acc ++ [(projectIdAt i p, relevance_score query p, p)])
          hnd.2 ?fresh]
        · rw [List.append_assoc]
          rfl
        case fresh =>
          intro id hid
          rw [List.any_append]
          rw [hfresh id (List.mem_cons_of_mem _ hid)]
          simp only [Bool.false_or, List.any_cons, List.any_nil, Bool.or_false]
          have hne : projectIdAt i p ≠ id := fun he => hnd.1 (he ▸ hid)
          exact beq_eq_false_iff_ne.mpr hne
      · rw [scoresAux, if_neg hbi, if_neg hsc, scoresSpecAux, if_neg hbi, if_neg hsc]
        exact ih (i + 1) acc hnd.2 fun id hid =>
          hfresh id (List.mem_cons_of_mem _ hid)

theorem filter_insertDesc {α : Type} (key : α → Nat) (x : α) (s : Nat) :
    ∀ l : List α,
      (insertDesc key x l).filter (fun y => key y == s) =
        if key x == s then x :: l.filter (fun y => key y == s)
        else l.filter (fun y => key y == s) := by
  intro l
  induction l with
  | nil =>
    by_cases hx : (key x == s) = true <;>
      simp [insertDesc, List.filter, hx]
  | cons y ys ih =>
    rw [insertDesc]
    by_cases hle : key y ≤ key x
    · rw [if_pos hle]
      by_cases hx : (key x == s) = true <;> simp [List.filter_cons, hx]
    · rw [if_neg hle]
      rw [List.filter_cons, List.filter_cons, ih]
      by_cases hx : (key x == s) = true
      · have hy : (key y == s) = false := by
          rw [beq_eq_false_iff_ne]
          intro hys
          rw [beq_iff_eq.mp hx] at hle
          exact hle (Nat.le_of_eq hys)
        simp [hx, hy]
      · have hx' : (key x == s) = false := Bool.eq_false_iff.mpr hx
        by_cases hy : (key y == s) = true <;> simp [hx', hy]

theorem filter_stableSortDesc {α : Type} (key : α → Nat) (s : Nat) :
    ∀ l : List α,
      (stableSortDesc key l).filter (fun y => key y == s) =
        l.filter (fun y => key y == s) := by
  intro l
  induction l with
  | nil => rfl
  | cons x xs ih =>
    rw [stableSortDesc, filter_insertDesc, ih, List.filter_cons]

theorem filter_take_pfx {α : Type} (p : α → Bool) (n : Nat) (l : List α) :
    (l.take n).filter p <+: l.filter p := by
  refine ⟨(l.drop n).filter p, ?_⟩
  rw [← List.filter_append, List.take_append_drop]

/-- C5: for well-formed records with pairwise-distinct derived ids, the
`project_scores` dict in insertion order is exactly the positively
scored records in input order, and for every score value the tied
entries of the ranked (sorted, top-10) output form a prefix of those
tied entries in input order — `sorted(..., reverse=True)` is stable with
no secondary key, so equal scores keep their input order. -/
theorem c5_ranking_tie_stable (query : String) (projects : List J)
    (_hWF : ∀ p ∈ projects, WFProject p = true)
    (hids : (idsOf projects).Nodup) (s : Nat) :
    project_scores query projects = scores_in_input_order query projects ∧
    (top_projects query projects).filter (fun e => e.2.1 == s) <+:
      (scores_in_input_order query projects).filter (fun e => e.2.1 == s) := by
  have hps : project_scores query projects = scores_in_input_order query projects := by
    unfold project_scores scores_in_input_order
    rw [scoresAux_eq_spec query projects 0 [] hids (fun id _ => rfl)]
    rfl
  refine ⟨hps, ?_⟩
  have h1 : (top_projects query projects).filter (fun e => e.2.1 == s) <+:
      (sorted_projects query projects).filter (fun e => e.2.1 == s) := by
    unfold top_projects
    exact filter_take_pfx _ 10 _
  have h2 : (sorted_projects query projects).filter (fun e => e.2.1 == s) =
      (scores_in_input_order query projects).filter (fun e => e.2.1 == s) := by
    unfold sorted_projects
    rw [filter_stableSortDesc, hps]
  rwa [h2] at h1

/-- Witness for C5: two records tie at score 10 for `"app"` and keep
their input order through sorting and truncation. -/
theorem c5_ranking_tie_stable_witness :
    (∀ p ∈ [pApp1, pApp2], WFProject p = true) ∧
    (idsOf [pApp1, pApp2]).Nodup ∧
    project_scores "app" [pApp1, pApp2] =
      [("a1", 10, pApp1), ("a2", 10, pApp2)] ∧
    (project_scores "app" [pApp1, pApp2] =
      scores_in_input_order "app" [pApp1, pApp2] ∧
    (top_projects "app" [pApp1, pApp2]).filter (fun e => e.2.1 == 10) <+:
      (scores_in_input_order "app" [pApp1, pApp2]).filter (fun e => e.2.1 == 10)) :=
  ⟨by decide, by decide, rfl,
   c5_ranking_tie_stable "app" [pApp1, pApp2] (by decide) (by decide) 10⟩

theorem hexVal_hexDig : ∀ d, d < 16 → hexVal (hexDig d) = d := by decide

theorem hex4_val {v : Nat} (hv : v < 0x10000) :
    hexVal (hexDig (v / 4096 % 16)) * 4096 + hexVal (hexDig (v / 256 % 16)) * 256 +
      hexVal (hexDig (v / 16 % 16)) * 16 + hexVal (hexDig (v % 16)) = v := by
  rw [hexVal_hexDig _ (Nat.mod_lt _ (by omega)),
    hexVal_hexDig _ (Nat.mod_lt _ (by omega)),
    hexVal_hexDig _ (Nat.mod_lt _ (by omega)),
    hexVal_hexDig _ (Nat.mod_lt _ (by omega))]
  omega

theorem char_valid_nat (c : Char) :
    c.toNat < 0xd800 ∨ (0xdfff < c.toNat ∧ c.toNat < 0x110000) := c.valid

theorem unescOne_escChar (c : Char) (rest : List Char) :
    unescOne (escChar c ++ rest) = some (c, rest) := by
  by_cases h1 : c = '"'
  · subst h1; rfl
  by_cases h2 : c = '\\'
  · subst h2; rfl
  by_cases h3 : c = '\x08'
  · subst h3; rfl
  by_cases h4 : c = '\x0c'
  · subst h4; rfl
  by_cases h5 : c = '\n'
  · subst h5; rfl
  by_cases h6 : c = '\x0d'
  · subst h6; rfl
  by_cases h7 : c = '\t'
  · subst h7; rfl
  rw [escChar, if_neg h1, if_neg h2, if_neg h3, if_neg h4, if_neg h5, if_neg h6,
    if_neg h7]
  by_cases h8 : 0x20 ≤ c.toNat ∧ c.toNat ≤ 0x7e
  · rw [if_pos h8]
    rw [List.cons_append, List.nil_append]
    rw [unescOne.eq_def]
    dsimp only []
    rw [if_neg h1, if_neg h2]
  · rw [if_neg h8]
    by_cases h9 : c.toNat < 0x10000
    · rw [if_pos h9]
      rw [hex4]
      simp only [List.cons_append, List.nil_append]
      rw [unescOne.eq_def]
      dsimp only []
      rw [if_neg (by decide : ¬('\\' : Char) = '"'), if_pos rfl,
        if_pos rfl]
      rw [hex4_val h9]
      rw [if_neg ?hsurr]
      case hsurr =>
        rcases char_valid_nat c with hlt | ⟨hgt, _⟩
        · intro hx; omega
        · intro hx; omega
      rw [Char.ofNat_toNat]
    · rw [if_neg h9]
      have hlt : c.toNat < 0x110000 := by
        rcases char_valid_nat c with hlt | ⟨_, hlt⟩ <;> omega
      have hge : 0x10000 ≤ c.toNat := by omega
      simp only [hex4, List.cons_append, List.nil_append, List.append_assoc]
      rw [unescOne.eq_def]
      dsimp only []
      rw [if_neg (by decide : ¬('\\' : Char) = '"'), if_pos rfl, if_pos rfl]
      have hhi : (c.toNat - 0x10000) / 0x400 < 0x400 := by omega
      rw [hex4_val (by omega : 0xd800 + (c.toNat - 0x10000) / 0x400 < 0x10000)]
      rw [if_pos (by omega)]
      rw [if_pos ⟨rfl, rfl⟩]
      rw [hex4_val (by omega : 0xdc00 + (c.toNat - 0x10000) % 0x400 < 0x10000)]
      have harith :
          0x10000 + (0xd800 + (c.toNat - 0x10000) / 0x400 - 0xd800) * 0x400 +
            (0xdc00 + (c.toNat - 0x10000) % 0x400 - 0xdc00) = c.toNat := by
        have := Nat.div_add_mod (c.toNat - 0x10000) 0x400
        omega
      rw [harith, Char.ofNat_toNat]

theorem escChar_head (c : Char) :
    ∃ hd tl, escChar c = hd :: tl ∧ hd ≠ '"' := by
  by_cases h1 : c = '"'
  · subst h1; exact ⟨'\\', _, rfl, by decide⟩
  by_cases h2 : c = '\\'
  · subst h2; exact ⟨'\\', _, rfl, by decide⟩
  by_cases h3 : c = '\x08'
  · subst h3; exact ⟨'\\', _, rfl, by decide⟩
  by_cases h4 : c = '\x0c'
  · subst h4; exact ⟨'\\', _, rfl, by decide⟩
  by_cases h5 : c = '\n'
  · subst h5; exact ⟨'\\', _, rfl, by decide⟩
  by_cases h6 : c = '\x0d'
  · subst h6; exact ⟨'\\', _, rfl, by decide⟩
  by_cases h7 : c = '\t'
  · subst h7; exact ⟨'\\', _, rfl, by decide⟩
  rw [escChar, if_neg h1, if_neg h2, if_neg h3, if_neg h4, if_neg h5, if_neg h6,
    if_neg h7]
  by_cases h8 : 0x20 ≤ c.toNat ∧ c.toNat ≤ 0x7e
  · rw [if_pos h8]
    exact ⟨c, [], rfl, h1⟩
  · rw [if_neg h8]
    by_cases h9 : c.toNat < 0x10000
    · rw [if_pos h9]
      exact ⟨'\\', _, rfl, by decide⟩
    · rw [if_neg h9]
      exact ⟨'\\', _, rfl, by decide⟩

theorem escChar_len (c : Char) : 1 ≤ (escChar c).length := by
  obtain ⟨hd, tl, heq, _⟩ := escChar_head c
  rw [heq]
  simp

theorem flatMap_escChar_len (l : List Char) :
    l.length ≤ (l.flatMap escChar).length := by
  induction l with
  | nil => simp
  | cons c cs ih =>
    rw [List.flatMap_cons, List.length_append, List.length_cons]
    have := escChar_len c
    omega

theorem scanStrF_esc : ∀ (s : List Char) (fuel : Nat) (rest : List Char),
    s.length ≤ fuel →
    scanStrF fuel (s.flatMap escChar ++ '"' :: rest) = some (s, rest) := by
  intro s
  induction s with
  | nil =>
    intro fuel rest _
    rw [List.flatMap_nil, List.nil_append, scanStrF.eq_def]
    dsimp only []
    rw [if_pos rfl]
  | cons c cs ih =>
    intro fuel rest hf
    obtain ⟨hd, tl, heq, hne⟩ := escChar_head c
    rw [List.flatMap_cons, List.append_assoc, heq, List.cons_append]
    cases fuel with
    | zero => simp at hf
    | succ f =>
      rw [scanStrF.eq_def]
      dsimp only []
      rw [if_neg hne]
      rw [← List.cons_append, ← heq, unescOne_escChar]
      dsimp only []
      rw [ih f rest (by simpa using hf)]
      rfl

theorem dropLit_pfx : ∀ pat rest : List Char, dropLit pat (pat ++ rest) = some rest := by
  intro pat
  induction pat with
  | nil => intro rest; rfl
  | cons p ps ih =>
    intro rest
    rw [List.cons_append, dropLit, if_pos rfl]
    exact ih rest

theorem parseJStr_jstr (t : String) (z : List Char) (fuel : Nat)
    (hf : t.data.length ≤ fuel) :
    parseJStr fuel (jstr t ++ z) = some (t.data, z) := by
  have hshape : jstr t ++ z = '"' :: (t.data.flatMap escChar ++ '"' :: z) := by
    rw [jstr, escStr]
    simp
  rw [hshape, parseJStr]
  exact scanStrF_esc t.data fuel z hf

theorem jstr_len (t : String) : t.data.length ≤ (jstr t).length := by
  rw [jstr]
  simp only [List.length_cons, List.length_append, List.length_singleton]
  have := flatMap_escChar_len t.data
  rw [escStr]
  omega

theorem fieldStr_encode (lbl s : String) (rest : List Char) :
    fieldStr lbl (lbl.data ++ (jstr s ++ rest)) = some (s, rest) := by
  unfold fieldStr
  rw [dropLit_pfx]
  dsimp only []
  rw [parseJStr_jstr s rest _ ?hf]
  case hf =>
    rw [List.length_append]
    have := jstr_len s
    omega

theorem parseStrsAfter_closing (fuel : Nat) (rest : List Char) :
    parseStrsAfter fuel (']' :: rest) = some ([], rest) := by
  cases fuel <;> rfl

theorem parseStrsAfter_comma (fuel' : Nat) (rest2 : List Char) :
    parseStrsAfter (fuel' + 1) (',' :: ' ' :: rest2) =
      match parseJStr rest2.length rest2 with
      | some (s, rest3) =>
        (parseStrsAfter fuel' rest3).map fun r => (⟨s⟩ :: r.1, r.2)
      | none => none := rfl

theorem parseJStrs_empty (fuel : Nat) (rest : List Char) :
    parseJStrs fuel ('[' :: ']' :: rest) = some ([], rest) := rfl

theorem parseJStrs_quote (fuel : Nat) (rest : List Char) :
    parseJStrs fuel ('[' :: '"' :: rest) =
      match scanStrF rest.length rest with
      | some (s, rest2) =>
        (parseStrsAfter fuel rest2).map fun r => (⟨s⟩ :: r.1, r.2)
      | none => none := rfl

theorem parseStrsAfter_encode :
    ∀ (ts : List String) (fuel : Nat) (rest : List Char), ts.length ≤ fuel →
      parseStrsAfter fuel
        ((ts.flatMap fun t => ',' :: ' ' :: jstr t) ++ ']' :: rest) =
        some (ts, rest) := by
  intro ts
  induction ts with
  | nil =>
    intro fuel rest _
    rw [List.flatMap_nil, List.nil_append, parseStrsAfter_closing]
  | cons t ts ih =>
    intro fuel rest hf
    cases fuel with
    | zero => simp at hf
    | succ f =>
      rw [List.flatMap_cons]
      simp only [List.cons_append, List.append_assoc]
      rw [parseStrsAfter_comma]
      rw [parseJStr_jstr t _ _ ?hf1]
      case hf1 =>
        rw [List.length_append]
        have := jstr_len t
        omega
      dsimp only []
      rw [ih f rest (by simpa using hf)]
      rfl

theorem parseJStrs_encode (ts : List String) (fuel : Nat) (rest : List Char)
    (hf : ts.length ≤ fuel + 1) :
    parseJStrs fuel (jstrs ts ++ rest) = some (ts, rest) := by
  cases ts with
  | nil =>
    rw [jstrs, List.cons_append, List.cons_append, List.nil_append]
    rw [parseJStrs_empty]
  | cons t ts =>
    have hshape : jstrs (t :: ts) ++ rest =
        '[' :: '"' :: (t.data.flatMap escChar ++ '"' ::
          ((ts.flatMap fun u => ',' :: ' ' :: jstr u) ++ ']' :: rest)) := by
      rw [jstrs, jstr, escStr]
      simp
    rw [hshape]
    rw [parseJStrs_quote]
    rw [scanStrF_esc t.data _ _ ?hf1]
    case hf1 =>
      simp only [List.length_append, List.length_cons]
      have := flatMap_escChar_len t.data
      omega
    dsimp only []
    rw [parseStrsAfter_encode ts fuel rest (by simpa using hf)]
    rfl

theorem jstrs_len (ts : List String) : ts.length ≤ (jstrs ts).length := by
  cases ts with
  | nil => simp [jstrs]
  | cons t ts =>
    rw [jstrs]
    simp only [List.length_cons, List.length_append, List.length_singleton]
    have hflat : ts.length ≤ (ts.flatMap fun u => ',' :: ' ' :: jstr u).length := by
      induction ts with
      | nil => simp
      | cons u us ih =>
        rw [List.flatMap_cons]
        simp only [List.length_cons, List.length_append]
        omega
    omega

theorem fieldStrs_encode (lbl : String) (ts : List String) (rest : List Char) :
    fieldStrs lbl (lbl.data ++ (jstrs ts ++ rest)) = some (ts, rest) := by
  unfold fieldStrs
  rw [dropLit_pfx]
  dsimp only []
  rw [parseJStrs_encode ts _ rest ?hf]
  case hf =>
    rw [List.length_append]
    have := jstrs_len ts
    omega

theorem hexDig_digit : ∀ d, d < 10 → isDigitCh (hexDig d) = true := by decide

theorem natChars_digits (n : Nat) : ∀ c ∈ natChars n, isDigitCh c = true := by
  induction n using Nat.strong_induction_on with
  | _ n ih =>
    intro c hc
    rw [natChars] at hc
    by_cases h : n < 10
    · rw [dif_pos h] at hc
      rcases List.mem_singleton.mp hc with rfl
      exact hexDig_digit n h
    · rw [dif_neg h] at hc
      rcases List.mem_append.mp hc with hc' | hc'
      · exact ih (n / 10) (Nat.div_lt_self (by omega) (by omega)) c hc'
      · rcases List.mem_singleton.mp hc' with rfl
        exact hexDig_digit _ (Nat.mod_lt _ (by omega))

theorem natChars_ne_nil (n : Nat) : natChars n ≠ [] := by
  rw [natChars]
  by_cases h : n < 10
  · rw [dif_pos h]
    simp
  · rw [dif_neg h]
    simp

theorem hexDig_inj10 : ∀ a, a < 10 → ∀ b, b < 10 → hexDig a = hexDig b → a = b := by
  decide

theorem natChars_inj : ∀ a b : Nat, natChars a = natChars b → a = b := by
  intro a
  induction a using Nat.strong_induction_on with
  | _ a ih =>
    intro b h
    by_cases ha : a < 10
    · by_cases hb : b < 10
      · rw [natChars, dif_pos ha, natChars, dif_pos hb] at h
        exact hexDig_inj10 a ha b hb (List.singleton_injective h)
      · rw [natChars, dif_pos ha] at h
        conv at h => rhs; rw [natChars]
        rw [dif_neg hb] at h
        have h1 := congrArg List.length h
        simp only [List.length_singleton, List.length_append] at h1
        have h2 := natChars_ne_nil (b / 10)
        have h3 : 0 < (natChars (b / 10)).length := List.length_pos.mpr h2
        omega
    · by_cases hb : b < 10
      · rw [natChars, dif_neg ha] at h
        conv at h => rhs; rw [natChars]
        rw [dif_pos hb] at h
        have h1 := congrArg List.length h
        simp only [List.length_singleton, List.length_append] at h1
        have h2 := natChars_ne_nil (a / 10)
        have h3 : 0 < (natChars (a / 10)).length := List.length_pos.mpr h2
        omega
      · rw [natChars, dif_neg ha] at h
        conv at h => rhs; rw [natChars]
        rw [dif_neg hb] at h
        have h1 := List.append_inj' h (by simp)
        have h2 := ih (a / 10) (Nat.div_lt_self (by omega) (by omega)) (b / 10) h1.1
        have h3 := hexDig_inj10 (a % 10) (Nat.mod_lt _ (by omega)) (b % 10)
          (Nat.mod_lt _ (by omega)) (List.singleton_injective h1.2)
        omega

theorem takeWhile_append_not (p : Char → Bool) :
    ∀ (l : List Char) (c : Char) (r : List Char),
      (∀ x ∈ l, p x = true) → p c = false →
      (l ++ c :: r).takeWhile p = l ∧ (l ++ c :: r).dropWhile p = c :: r := by
  intro l
  induction l with
  | nil =>
    intro c r _ hc
    constructor
    · rw [List.nil_append, List.takeWhile_cons, if_neg (by simp [hc])]
    · rw [List.nil_append, List.dropWhile_cons, if_neg (by simp [hc])]
  | cons x xs ih =>
    intro c r hl hc
    have hx : p x = true := hl x (List.mem_cons_self x xs)
    have hrec := ih c r (fun y hy => hl y (List.mem_cons_of_mem x hy)) hc
    constructor
    · rw [List.cons_append, List.takeWhile_cons, if_pos (by simp [hx]), hrec.1]
    · rw [List.cons_append, List.dropWhile_cons, if_pos (by simp [hx]), hrec.2]

theorem fieldDigits_team (n : Nat) (r : List Char) :
    fieldDigits ", \"team_size\": "
      ((", \"team_size\": ").data ++
        (natChars n ++ ((", \"tech_stack\": ").data ++ r))) =
      some (natChars n, (", \"tech_stack\": ").data ++ r) := by
  unfold fieldDigits
  rw [dropLit_pfx]
  dsimp only []
  have hshape : (", \"tech_stack\": ").data ++ r =
      ',' :: ((" \"tech_stack\": ").data ++ r) := rfl
  rw [hshape]
  have h := takeWhile_append_not isDigitCh (natChars n) ','
    ((" \"tech_stack\": ").data ++ r) (natChars_digits n) (by decide)
  rw [h.1, h.2]

theorem decodeContent_encode (cd : ContentData) :
    decodeContent (content_data_string cd) =
      some (cd.features, cd.problem_statement, cd.solution,
        natChars cd.team_size, cd.tech_stack) := by
  unfold decodeContent content_data_string
  simp only [List.append_assoc]
  rw [fieldStr_encode]
  dsimp only [Option.bind]
  rw [fieldStr_encode]
  dsimp only [Option.bind]
  rw [fieldStr_encode]
  dsimp only [Option.bind]
  rw [fieldDigits_team]
  dsimp only [Option.bind]
  rw [fieldStrs_encode]

theorem decodeHash_encode (hd : HashData) :
    decodeHash (hash_data_string hd) = some hd := by
  unfold decodeHash hash_data_string
  simp only [List.append_assoc]
  rw [fieldStr_encode]
  dsimp only [Option.bind]
  rw [fieldStrs_encode]
  dsimp only [Option.bind]
  rw [fieldStrs_encode]
  dsimp only [Option.bind]
  rw [fieldStr_encode]
  dsimp only [Option.bind]
  rw [fieldStr_encode]
  dsimp only [Option.bind]
  rw [fieldStr_encode]
  dsimp only [Option.bind]
  rw [fieldStr_encode]
  dsimp only [Option.bind]
  rw [fieldStr_encode]

theorem content_data_string_inj {a b : ContentData}
    (h : content_data_string a = content_data_string b) : a = b := by
  have hd := congrArg decodeContent h
  rw [decodeContent_encode, decodeContent_encode] at hd
  have hd' := Option.some.inj hd
  cases a with | mk a1 a2 a3 a4 a5 =>
  cases b with | mk b1 b2 b3 b4 b5 =>
  simp only [Prod.mk.injEq] at hd'
  obtain ⟨h3, h1, h2, h4, h5⟩ := hd'
  have h4' := natChars_inj _ _ h4
  subst h1
  subst h2
  subst h3
  subst h4'
  subst h5
  rfl

theorem hash_data_string_inj {a b : HashData}
    (h : hash_data_string a = hash_data_string b) : a = b := by
  have hd := congrArg decodeHash h
  rw [decodeHash_encode, decodeHash_encode] at hd
  exact Option.some.inj hd

theorem hash_content_view (md5 : String → String) (p : J) :
    hash_content md5 (p.getObjD "detailed_info") =
      (match contentView p with
       | none => ""
       | some cd => md5 ⟨content_data_string cd⟩) := by
  unfold hash_content contentView
  by_cases h : ((p.getObjD "detailed_info").falsy ||
      ((p.getObjD "detailed_info").getEntry "content").isNone) = true
  · rw [if_pos h, if_pos h]
  · rw [if_neg h, if_neg h]

theorem projectHashData_view (md5 : String → String) (p : J) :
    projectHashData md5 p = hashDataOfView md5 (fingerprintInput p) := by
  unfold projectHashData hashDataOfView fingerprintInput
  dsimp only []
  rw [hash_content_view]

theorem generate_project_hash_iff (md5 : String → String)
    (hinj : Function.Injective md5) (hne : ∀ s, md5 s ≠ "") (p q : J) :
    generate_project_hash md5 p = generate_project_hash md5 q ↔
      fingerprintInput p = fingerprintInput q := by
  constructor
  · intro h
    unfold generate_project_hash at h
    have h1 := hinj h
    have h2 : hash_data_string (projectHashData md5 p) =
        hash_data_string (projectHashData md5 q) := congrArg String.data h1
    have h3 := hash_data_string_inj h2
    rw [projectHashData_view, projectHashData_view] at h3
    revert h3
    generalize fingerprintInput p = vp
    generalize fingerprintInput q = vq
    intro h3
    cases vp with | mk t1 s1 st1 d1 pt1 y1 u1 c1 =>
    cases vq with | mk t2 s2 st2 d2 pt2 y2 u2 c2 =>
    simp only [hashDataOfView, HashData.mk.injEq] at h3
    obtain ⟨ht, hs, hst, hd, hpt, hy, hu, hc⟩ := h3
    simp only [FingerprintInput.mk.injEq]
    refine ⟨ht, hs, hst, hd, hpt, hy, hu, ?_⟩
    cases c1 with
    | none =>
      cases c2 with
      | none => rfl
      | some cd2 => exact absurd hc.symm (hne _)
    | some cd1 =>
      cases c2 with
      | none => exact absurd hc (hne _)
      | some cd2 =>
        have hcd := hinj hc
        have hcd2 : content_data_string cd1 = content_data_string cd2 :=
          congrArg String.data hcd
        rw [content_data_string_inj hcd2]
  · intro h
    unfold generate_project_hash
    rw [projectHashData_view, projectHashData_view, h]


theorem EPerm_isEmpty : ∀ {l₁ l₂ : List (String × J)}, EPerm l₁ l₂ →
    l₁.isEmpty = l₂.isEmpty
  | _, _, .nil => rfl
  | _, _, .cons _ _ => rfl
  | _, _, .swap _ => rfl
  | _, _, .trans h1 h2 => (EPerm_isEmpty h1).trans (EPerm_isEmpty h2)

theorem LJR_length : ∀ {l₁ l₂ : List J}, LJR l₁ l₂ → l₁.length = l₂.length
  | _, _, .nil => rfl
  | _, _, .cons _ h => by
    rw [List.length_cons, List.length_cons, LJR_length h]

theorem JR_getStrD {p q : J} (h : JR p q) (k d : String) :
    p.getStrD k d = q.getStrD k d := by
  have ho := JR_getEntry h k
  unfold J.getStrD
  cases hp : p.getEntry k with
  | none =>
    cases hq : q.getEntry k with
    | none => rfl
    | some b =>
      rw [hp, hq] at ho
      exact ho.elim
  | some a =>
    cases hq : q.getEntry k with
    | none =>
      rw [hp, hq] at ho
      exact ho.elim
    | some b =>
      rw [hp, hq] at ho
      cases ho <;> rfl

theorem JR_getStr {p q : J} (h : JR p q) (k : String) :
    p.getStr k = q.getStr k := JR_getStrD h k ""

theorem LJR_strMap : ∀ {l₁ l₂ : List J}, LJR l₁ l₂ →
    (l₁.map fun x => match x with | J.str s => s | _ => "") =
      (l₂.map fun x => match x with | J.str s => s | _ => "")
  | _, _, .nil => rfl
  | _, _, .cons hx h => by
    rw [List.map_cons, List.map_cons, LJR_strMap h]
    congr 1
    cases hx <;> rfl

theorem JR_getStrArr {p q : J} (h : JR p q) (k : String) :
    p.getStrArr k = q.getStrArr k := by
  unfold J.getStrArr
  exact LJR_strMap (JR_getArr h k)

theorem JR_falsy {p q : J} (h : JR p q) : p.falsy = q.falsy := by
  cases h with
  | nullR => rfl
  | strR s => rfl
  | numR n => rfl
  | arrR hl => cases hl with | nil => rfl | cons _ _ => rfl
  | objR he => exact EPerm_isEmpty he

theorem LJR_filterTech : ∀ {l₁ l₂ : List J}, LJR l₁ l₂ →
    (l₁.filterMap fun a =>
      if a.getStr "type" == "PROJECT_TECH" then some (a.getStr "techStack")
      else none) =
    (l₂.filterMap fun a =>
      if a.getStr "type" == "PROJECT_TECH" then some (a.getStr "techStack")
      else none)
  | _, _, .nil => rfl
  | _, _, @LJR.cons x y m₁ m₂ hx h => by
    rw [List.filterMap_cons, List.filterMap_cons]
    rw [JR_getStr hx "type", JR_getStr hx "techStack", LJR_filterTech h]

theorem JR_contentDataOf {c₁ c₂ : J} (h : JR c₁ c₂) :
    contentDataOf c₁ = contentDataOf c₂ := by
  have hpd := JR_getObjD h "projectDetails"
  unfold contentDataOf techStackOf
  rw [JR_getStr hpd "problem_statement", JR_getStr hpd "solution",
    JR_getStr hpd "features", LJR_length (JR_getArr h "team"),
    LJR_filterTech (JR_getArr h "associations")]

theorem JR_contentView {p q : J} (h : JR p q) : contentView p = contentView q := by
  have hdi := JR_getObjD h "detailed_info"
  have hf := JR_falsy hdi
  have hc := JR_getEntry hdi "content"
  unfold contentView
  cases hp : (p.getObjD "detailed_info").getEntry "content" with
  | none =>
    cases hq : (q.getObjD "detailed_info").getEntry "content" with
    | none =>
      simp only [hp, hq, hf, Option.isNone_none, Bool.or_true, if_true]
    | some cv₂ =>
      rw [hp, hq] at hc
      exact hc.elim
  | some cv₁ =>
    cases hq : (q.getObjD "detailed_info").getEntry "content" with
    | none =>
      rw [hp, hq] at hc
      exact hc.elim
    | some cv₂ =>
      rw [hp, hq] at hc
      simp only [hp, hq, hf, Option.isNone_some, Bool.or_false, Option.getD_some]
      by_cases hfq : (q.getObjD "detailed_info").falsy = true
      · rw [if_pos hfq, if_pos hfq]
      · rw [if_neg hfq, if_neg hfq, JR_contentDataOf hc]

theorem JR_fingerprintInput {p q : J} (h : JR p q) :
    fingerprintInput p = fingerprintInput q := by
  have hbi := JR_getObjD h "basic_info"
  unfold fingerprintInput
  dsimp only []
  rw [JR_getStr hbi "title", JR_getStr hbi "subtitle", JR_getStr hbi "status",
    JR_getStrArr hbi "domains", JR_getStrArr hbi "projectTypes",
    JR_getStr hbi "year", JR_getStr hbi "updatedAt", JR_contentView h]

theorem md5Tag_inj : Function.Injective md5Tag := by
  intro s t h
  cases s with
  | mk ds =>
    cases t with
    | mk dt =>
      have h2 : '#' :: ds = '#' :: dt := congrArg String.data h
      exact congrArg String.mk (List.cons.inj h2).2

theorem md5Tag_ne (s : String) : md5Tag s ≠ "" := by
  cases s with
  | mk ds =>
    intro h
    exact List.cons_ne_nil _ _ (congrArg String.data h)

/-- **C9.** For an injective digest with nonempty output, the fingerprint
`_generate_project_hash` is deterministic (repeated calls on an unchanged
record agree); two records receive the same fingerprint exactly when they
agree on every hashed field (title, subtitle, status, domains, projectTypes,
year, updatedAt, and the nested content data) — so changing any hashed field
changes the fingerprint while un-hashed fields are irrelevant; and
reordering keys inside map-like objects never changes it, whereas the
characterization keeps list-valued fields in input order, so reordering a
list changes the fingerprint whenever it changes the hashed projection. -/
theorem c9_fingerprint_characterization (md5 : String → String)
    (hinj : Function.Injective md5) (hne : ∀ s, md5 s ≠ "") :
    (∀ p, generate_project_hash md5 p = generate_project_hash md5 p) ∧
    (∀ p q, generate_project_hash md5 p = generate_project_hash md5 q ↔
      fingerprintInput p = fingerprintInput q) ∧
    (∀ p q, JR p q →
      generate_project_hash md5 p = generate_project_hash md5 q) :=
  ⟨fun _ => rfl,
   fun p q => generate_project_hash_iff md5 hinj hne p q,
   fun p q h =>
     (generate_project_hash_iff md5 hinj hne p q).mpr (JR_fingerprintInput h)⟩

/-- Witness for C9 at the concrete injective digest `md5Tag`: key reordering
(`pHealth` vs `pHealthSwap`) preserves the fingerprint, changing a hashed
field (`pTitleA` vs `pTitleB`) changes it, and reordering a list-valued
field (`pDomAB` vs `pDomBA`) changes it. -/
theorem c9_fingerprint_characterization_witness :
    generate_project_hash md5Tag pHealth =
      generate_project_hash md5Tag pHealthSwap ∧
    generate_project_hash md5Tag pTitleA ≠
      generate_project_hash md5Tag pTitleB ∧
    generate_project_hash md5Tag pDomAB ≠
      generate_project_hash md5Tag pDomBA := by
  obtain ⟨-, hiff, hreord⟩ :=
    c9_fingerprint_characterization md5Tag md5Tag_inj md5Tag_ne
  refine ⟨hreord pHealth pHealthSwap jrHealthSwap, ?_, ?_⟩
  · intro h
    exact absurd ((hiff pTitleA pTitleB).mp h) (by decide)
  · intro h
    exact absurd ((hiff pDomAB pDomBA).mp h) (by decide)
